import Mathlib

/-!
Shallow embedding of `SmartAnalyze.py` (SmartAnalyzeTransient, SmartAnalyzeStatic,
RecursiveAnalyze, setAlgorithm) over exact rational arithmetic.

The solver (openseespy `ops`) is modelled as an oracle giving the outcome of the
n-th `ops.analyze` call and the last test norm after it.  Every call issued to the
solver (`ops.algorithm` via `setAlgorithm`, `ops.test`, `ops.integrator`,
`ops.analyze`) is recorded as an `Event` in a trace.  `RecursiveAnalyze` is
embedded with an explicit fuel argument (the Python recursion has no structural
bound); fuel exhaustion yields `none`.
-/

namespace SmartAnalyze

/-- Solver-visible calls issued by the driver.
`algo t` records an invocation of the Python helper `setAlgorithm(t)`;
`test tol iter` records `ops.test(testType, tol, iter, printFlag)`;
`integrator s` records `ops.integrator('DisplacementControl', node, dof, s)`;
`analyze s ok` records `ops.analyze` (one trial step) together with its outcome. -/
inductive Event where
  | algo (t : Int)
  | test (tol : ℚ) (iter : Nat)
  | integrator (s : ℚ)
  | analyze (s : ℚ) (ok : Bool)
  deriving DecidableEq, Repr

/-- The `control` dictionary of `SmartAnalyze.py` (after defaults + user overrides).
`analysisStatic` is `control['analysis'] == 'Static'`. -/
structure Control where
  analysisStatic : Bool
  testTol : ℚ
  testIterTimes : Nat
  tryAddTestTimes : Bool
  normTol : ℚ
  testIterTimesMore : Nat
  tryLooseTestTol : Bool
  looseTestTolTo : ℚ
  tryAlterAlgoTypes : Bool
  algoTypes : List Int
  initialStep : ℚ
  relaxation : ℚ
  minStep : ℚ
  printPer : Nat
  deriving DecidableEq, Repr

/-- The `current` status dictionary threaded through `RecursiveAnalyze`.
`step` is only meaningful for Static runs (the Python dict has no `'step'` key
for Transient runs and never reads it there). -/
structure Current where
  algoIndex : Nat
  testIterTimes : Nat
  testTol : ℚ
  counter : Nat
  progress : Nat
  segs : Nat
  step : ℚ
  deriving DecidableEq, Repr

/-- Oracle for the external solver: outcome of the n-th `ops.analyze` call of the
run (`true` = converged, i.e. the Python call returned 0) and the last entry of
`ops.testNorms()` after that call. -/
structure Solver where
  ok : Nat → Bool
  lastNorm : Nat → ℚ

/-- Result of one (recursive) `RecursiveAnalyze` call: the returned integer code,
the final `current` state, the total number of `ops.analyze` calls issued so far
in the run, and the trace of solver calls issued by this call. -/
structure Res where
  code : Int
  cur : Current
  attempts : Nat
  trace : List Event
  deriving DecidableEq, Repr

/-- Prefix a result's trace with the given events. -/
def withTrace (evs : List Event) (r : Res) : Res :=
  { r with trace := evs ++ r.trace }

/-- The integer codes that are keys of the `switch` dictionary in `setAlgorithm`. -/
def algoCatalog : List Int :=
  [0, 1, 2, 10, 11, 12, 20, 21, 22, 23, 30, 31, 40, 41, 42, 43, 44, 45,
   50, 51, 52, 53, 60, 70, 80, 90]

/-- Whether `setAlgorithm t` issues an `ops.algorithm` command to the solver.
Every catalog entry does except 90 (`case90` is `pass`: the user hook is
commented out); the `default` case only prints an error. -/
def setAlgorithmIssuesCommand (t : Int) : Bool :=
  algoCatalog.contains t && t != 90

/-- Whether `setAlgorithm t` falls into the `default` case, which prints
`!!! SmartAnalyze: ERROR! WRONG Algorithm Type!` and returns normally. -/
def setAlgorithmPrintsError (t : Int) : Bool :=
  !(algoCatalog.contains t)

/-- Lines 397-422 of `RecursiveAnalyze`: synchronize the solver configuration
with the requested `algoIndex`, `testIterTimes`, `testTol` and (for Static runs)
`step`, issuing a call only when the requested value differs from the tracked
one.  Returns the updated `current` and the issued events. -/
def syncConfig (ctl : Control) (step : ℚ) (algoIndex testIterTimes : Nat)
    (testTol : ℚ) (cur : Current) : Current × List Event :=
  let p1 :=
    if algoIndex ≠ cur.algoIndex then
      ({ cur with algoIndex := algoIndex },
        [Event.algo (ctl.algoTypes.getD algoIndex 0)])
    else (cur, [])
  let p2 :=
    if testIterTimes ≠ p1.1.testIterTimes ∨ testTol ≠ p1.1.testTol then
      ({ p1.1 with testIterTimes := testIterTimes, testTol := testTol },
        [Event.test testTol testIterTimes])
    else (p1.1, [])
  let p3 :=
    if ctl.analysisStatic = true ∧ p2.1.step ≠ step then
      ({ p2.1 with step := step }, [Event.integrator step])
    else (p2.1, [])
  (p3.1, p1.2 ++ p2.2 ++ p3.2)

/-- Lines 474-479: the first half of a bisected step, `step * relaxation`,
clamped in magnitude to at least `minStep` (two sequential clamps, as coded). -/
def bisectNew (ctl : Control) (step : ℚ) : ℚ :=
  let s1 := step * ctl.relaxation
  let s2 := if s1 > 0 ∧ s1 < ctl.minStep then ctl.minStep else s1
  if s2 < 0 ∧ s2 > -ctl.minStep then -ctl.minStep else s2

/-- Line 481: the remainder of a bisected step. -/
def bisectRest (ctl : Control) (step : ℚ) : ℚ :=
  step - bisectNew ctl step

/-- Lines 454-490 of `RecursiveAnalyze`: the escalation-ladder rungs after the
add-test-times rung — switch algorithm, check the step floor (loosen tolerance
or return -1), bisect.  `recur` is the recursive continuation (the recursive
`RecursiveAnalyze` call at one less fuel). -/
def ladderBCD (recur : ℚ → Nat → Nat → ℚ → Current → Nat → Option Res)
    (ctl : Control) (step : ℚ) (algoIndex testIterTimes : Nat) (testTol : ℚ)
    (cur : Current) (k : Nat) : Option Res :=
  if ctl.tryAlterAlgoTypes = true ∧ algoIndex + 1 < ctl.algoTypes.length then
    recur step (algoIndex + 1) testIterTimes testTol cur k
  else if |step| < 2 * ctl.minStep then
    if ctl.tryLooseTestTol = true ∧ cur.testTol ≠ ctl.looseTestTolTo then
      recur step 0 ctl.testIterTimes ctl.looseTestTolTo cur k
    else
      some ⟨-1, cur, k, []⟩
  else
    match recur (bisectNew ctl step) 0 testIterTimes testTol cur k with
    | none => none
    | some r1 =>
      if r1.code < 0 then some ⟨-1, r1.cur, r1.attempts, r1.trace⟩
      else
        match recur (bisectRest ctl step) 0 testIterTimes testTol r1.cur r1.attempts with
        | none => none
        | some r2 =>
          if r2.code < 0 then some ⟨-1, r2.cur, r2.attempts, r1.trace ++ r2.trace⟩
          else some ⟨1, r2.cur, r2.attempts, r1.trace ++ r2.trace⟩

/-- `RecursiveAnalyze(step, algoIndex, testIterTimes, testTol, control, current)`
with fuel.  `k` is the number of `ops.analyze` calls already issued in the run. -/
def recAnalyze (S : Solver) (ctl : Control) :
    Nat → ℚ → Nat → Nat → ℚ → Current → Nat → Option Res
  | 0, _, _, _, _, _, _ => none
  | fuel + 1, step, algoIndex, testIterTimes, testTol, cur, k =>
    let sc := syncConfig ctl step algoIndex testIterTimes testTol cur
    let ok := S.ok k
    let cur2 := { sc.1 with counter := sc.1.counter + 1 }
    let evs := sc.2 ++ [Event.analyze step ok]
    if ok then
      let cur3 :=
        if ctl.printPer ≠ 0 ∧ ctl.printPer ≤ cur2.counter then
          { cur2 with counter := 0 }
        else cur2
      some ⟨0, cur3, k + 1, evs⟩
    else if ctl.tryAddTestTimes = true ∧ testIterTimes ≠ ctl.testIterTimesMore ∧
        S.lastNorm k < ctl.normTol then
      Option.map (withTrace evs)
        (recAnalyze S ctl fuel step algoIndex ctl.testIterTimesMore testTol cur2 (k + 1))
    else
      Option.map (withTrace evs)
        (ladderBCD (recAnalyze S ctl fuel) ctl step algoIndex testIterTimes testTol cur2 (k + 1))

/-- Lines 339-343 of `SmartAnalyzeStatic`: the `while`-loop splitting one
positive loading leg `sec` into segments, starting at loop counter `j`
(`while (section - j*maxStep) > maxStep: segs.append(maxStep); j += 1` followed
by `segs.append(section - j*maxStep)`).  Fuel-indexed: the Python loop need not
terminate (it does not when `maxStep ≤ 0`), so fuel exhaustion yields `none`. -/
def splitPosF (m : ℚ) : Nat → ℚ → Nat → Option (List ℚ)
  | 0, _, _ => none
  | fuel + 1, sec, j =>
    if sec - (j : ℚ) * m > m then
      (splitPosF m fuel sec (j + 1)).map (fun l => m :: l)
    else some [sec - (j : ℚ) * m]

/-- Lines 345-350: the symmetric `while`-loop for a negative leg
(`while (-section - j*maxStep) > maxStep: segs.append(-maxStep); j += 1`
followed by `segs.append(section + j*maxStep)`). -/
def splitNegF (m : ℚ) : Nat → ℚ → Nat → Option (List ℚ)
  | 0, _, _ => none
  | fuel + 1, sec, j =>
    if -sec - (j : ℚ) * m > m then
      (splitNegF m fuel sec (j + 1)).map (fun l => -m :: l)
    else some [sec + (j : ℚ) * m]

/-- Legs `i ≥ 1` of the planning loop (lines 325-350): each `section` is
`targets[i] - targets[i-1]`, split positively when `section ≥ 0`, negatively
otherwise.  `prev` is `targets[i-1]`. -/
def planRestF (fuel : Nat) (m : ℚ) : ℚ → List ℚ → Option (List ℚ)
  | _, [] => some []
  | prev, t :: ts =>
    let sec := t - prev
    match (if 0 ≤ sec then splitPosF m fuel sec 0 else splitNegF m fuel sec 0),
        planRestF fuel m t ts with
    | some leg, some rest => some (leg ++ rest)
    | _, _ => none

/-- The full segment plan of `SmartAnalyzeStatic` (lines 322-351): the first leg
is `targets[0]`, always split as positive, followed by the consecutive-delta
legs. -/
def planSegsF (fuel : Nat) (m : ℚ) : List ℚ → Option (List ℚ)
  | [] => some []
  | t0 :: ts =>
    match splitPosF m fuel t0 0, planRestF fuel m t0 ts with
    | some leg, some rest => some (leg ++ rest)
    | _, _ => none

/-- The same planning loop, keeping each leg's delta next to the segments it
produced (used to state the per-leg sign property): legs `i ≥ 1`. -/
def legsRestF (fuel : Nat) (m : ℚ) : ℚ → List ℚ → Option (List (ℚ × List ℚ))
  | _, [] => some []
  | prev, t :: ts =>
    let sec := t - prev
    match (if 0 ≤ sec then splitPosF m fuel sec 0 else splitNegF m fuel sec 0),
        legsRestF fuel m t ts with
    | some leg, some rest => some ((sec, leg) :: rest)
    | _, _ => none

/-- The per-leg view of the full segment plan. -/
def legsOfF (fuel : Nat) (m : ℚ) : List ℚ → Option (List (ℚ × List ℚ))
  | [] => some []
  | t0 :: ts =>
    match splitPosF m fuel t0 0, legsRestF fuel m t0 ts with
    | some leg, some rest => some ((t0, leg) :: rest)
    | _, _ => none

/-- The sequence of leg deltas: `targets[0]` then `targets[i] - targets[i-1]`. -/
def legDeltas : List ℚ → List ℚ
  | [] => []
  | t0 :: ts => t0 :: (List.zipWith (fun t p => t - p) ts (t0 :: ts))

/-- The orchestrator loop (lines 243-251 for Transient, 355-361 for Static):
drive the planned segments through `RecursiveAnalyze` one at a time, each with
`algoIndex = 0`, the initial `testIterTimes` and the initial `testTol`, aborting
on the first negative return and bumping `progress` after each success. -/
def runSegs (S : Solver) (ctl : Control) (fuel : Nat) :
    List ℚ → Current → Nat → Option Res
  | [], cur, k => some ⟨0, cur, k, []⟩
  | seg :: rest, cur, k =>
    match recAnalyze S ctl fuel seg 0 ctl.testIterTimes ctl.testTol cur k with
    | none => none
    | some r =>
      if r.code < 0 then some r
      else
        match runSegs S ctl fuel rest { r.cur with progress := r.cur.progress + 1 } r.attempts with
        | none => none
        | some r2 => some ⟨r2.code, r2.cur, r2.attempts, r.trace ++ r2.trace⟩

/-- Lines 269-273: the initial step of a Static run, `min(maxStep, targets[0])`
as coded (`if maxStep > targets[0]: initialStep = targets[0] else: initialStep
= maxStep`). -/
def staticFirstStep (maxStep : ℚ) (targets : List ℚ) : ℚ :=
  if maxStep > targets.headD 0 then targets.headD 0 else maxStep

/-- Lines 304-308: the one-time solver configuration issued by
`SmartAnalyzeStatic` before planning — `ops.test`, `setAlgorithm(algoTypes[0])`,
`ops.integrator(..., initialStep)`. -/
def staticSetupEvents (ctl : Control) (maxStep : ℚ) (targets : List ℚ) : List Event :=
  Event.test ctl.testTol ctl.testIterTimes ::
    Event.algo (ctl.algoTypes.getD 0 0) ::
    [Event.integrator (staticFirstStep maxStep targets)]

/-- Lines 310-320: the initial `current` dictionary of a Static run. -/
def staticStartCurrent (ctl : Control) (maxStep : ℚ) (targets : List ℚ) : Current :=
  { algoIndex := 0
    testIterTimes := ctl.testIterTimes
    testTol := ctl.testTol
    counter := 0
    progress := 0
    segs := 0
    step := staticFirstStep maxStep targets }

/-- `SmartAnalyzeStatic(node, dof, maxStep, targets)` (lines 261-366), without
console output: issue the one-time configuration, plan the segments, and run
them.  The first component records the configuration calls issued before the
planning loop; the second is `none` when planning or a recursion exhausts its
fuel. -/
def smartAnalyzeStatic (S : Solver) (ctl : Control) (maxStep : ℚ)
    (targets : List ℚ) (fuel : Nat) : List Event × Option Res :=
  let setup := staticSetupEvents ctl maxStep targets
  match planSegsF fuel maxStep targets with
  | none => (setup, none)
  | some segs =>
    (setup,
      runSegs S ctl fuel segs
        { staticStartCurrent ctl maxStep targets with segs := segs.length } 0)

/-- Lines 227-240: the one-time configuration and initial `current` of a
Transient run (`ops.test`, `setAlgorithm(algoTypes[0])`; no integrator call). -/
def transientSetupEvents (ctl : Control) : List Event :=
  Event.test ctl.testTol ctl.testIterTimes :: [Event.algo (ctl.algoTypes.getD 0 0)]

/-- The initial `current` dictionary of a Transient run; the Python dict has no
`'step'` key, and `RecursiveAnalyze` never reads it for Transient runs, so it is
embedded as 0. -/
def transientStartCurrent (ctl : Control) (npts : Nat) : Current :=
  { algoIndex := 0
    testIterTimes := ctl.testIterTimes
    testTol := ctl.testTol
    counter := 0
    progress := 0
    segs := npts
    step := 0 }

/-- `SmartAnalyzeTransient(dt, npts)` (lines 192-258): `npts` increments of
`control['initialStep']` each. -/
def smartAnalyzeTransient (S : Solver) (ctl : Control) (npts : Nat)
    (fuel : Nat) : List Event × Option Res :=
  (transientSetupEvents ctl,
    runSegs S ctl fuel (List.replicate npts ctl.initialStep)
      (transientStartCurrent ctl npts) 0)

/-- Finiteness of the bisection recursion: a step either is already below the
`2*minStep` floor, or both halves of its bisection are again finite.  Proving
`BisectTerm ctl step` for every step shows the bisection recursion of
`RecursiveAnalyze` cannot go on forever. -/
inductive BisectTerm (ctl : Control) : ℚ → Prop
  | floor (step : ℚ) : |step| < 2 * ctl.minStep → BisectTerm ctl step
  | split (step : ℚ) : BisectTerm ctl (bisectNew ctl step) →
      BisectTerm ctl (bisectRest ctl step) → BisectTerm ctl step

/-- The values most recently passed to `setAlgorithm`, `ops.test` and
`ops.integrator`, recovered from the event trace. -/
structure CfgTrack where
  algoCode : Int
  testIter : Nat
  testTolC : ℚ
  stepI : ℚ
  deriving DecidableEq, Repr

/-- Update the most-recently-passed record with one issued event. -/
def applyEvent (cfg : CfgTrack) : Event → CfgTrack
  | Event.algo t => { cfg with algoCode := t }
  | Event.test tol it => { cfg with testIter := it, testTolC := tol }
  | Event.integrator s => { cfg with stepI := s }
  | Event.analyze _ _ => cfg

/-- Fold a trace of issued events into the most-recently-passed record. -/
def applyEvents (cfg : CfgTrack) (evs : List Event) : CfgTrack :=
  evs.foldl applyEvent cfg

/-- The tracking invariant: the `current` dictionary agrees with the values most
recently passed to the solver — `algoTypes[current['algoIndex']]` is the spec
last passed to `setAlgorithm`, `current['testIterTimes']`/`current['testTol']`
were last passed to `ops.test`, and for Static runs `current['step']` was last
passed to `ops.integrator`. -/
def Agree (ctl : Control) (cur : Current) (cfg : CfgTrack) : Prop :=
  ctl.algoTypes.getD cur.algoIndex 0 = cfg.algoCode ∧
  cur.testIterTimes = cfg.testIter ∧
  cur.testTol = cfg.testTolC ∧
  (ctl.analysisStatic = true → cur.step = cfg.stepI)

/-- Boolean check that every `ops.test` call in a trace used tolerance `q`. -/
def allTestTolEq (q : ℚ) (evs : List Event) : Bool :=
  evs.all fun e =>
    match e with
    | Event.test tol _ => tol == q
    | _ => true

/-- Boolean check that every `ops.test` call in a trace used tolerance `q` and
iteration count `n`. -/
def testsUse (q : ℚ) (n : Nat) (evs : List Event) : Bool :=
  evs.all fun e =>
    match e with
    | Event.test tol it => tol == q && it == n
    | _ => true

/-- A concrete Static control dictionary used for concrete runs: initial
tolerance 3, 7 iterations, loosened tolerance 7, algorithm list `[40]`,
`minStep` 1, all `try*` flags off, periodic printing off. -/
def ctlBase : Control :=
  { analysisStatic := true, testTol := 3, testIterTimes := 7,
    tryAddTestTimes := false, normTol := 1000, testIterTimesMore := 50,
    tryLooseTestTol := false, looseTestTolTo := 7, tryAlterAlgoTypes := false,
    algoTypes := [40], initialStep := 1, relaxation := 1/2, minStep := 1,
    printPer := 0 }

/-- `ctlBase` with tolerance loosening enabled. -/
def ctlLoose : Control := { ctlBase with tryLooseTestTol := true }

/-- `ctlBase` with the add-test-iterations escalation enabled. -/
def ctlAdd : Control := { ctlBase with tryAddTestTimes := true }

/-- `ctlBase` with an algorithm code outside the `setAlgorithm` catalog. -/
def ctlBad : Control := { ctlBase with algoTypes := [99] }

/-- A solver stub whose every attempt converges. -/
def solverOk : Solver := ⟨fun _ => true, fun _ => 0⟩

/-- A solver stub whose every attempt fails, with last residual norm 5. -/
def solverFail : Solver := ⟨fun _ => false, fun _ => 5⟩

/-- A solver stub that fails the first attempt and converges afterwards, with
last residual norm 5. -/
def solverFailFirst : Solver := ⟨fun n => n != 0, fun _ => 5⟩

/-! One-step unfolding equations for `recAnalyze` and `ladderBCD`. -/

theorem recAnalyze_ok (S : Solver) (ctl : Control) (fuel : Nat) (step : ℚ)
    (aI tI : Nat) (tT : ℚ) (cur : Current) (k : Nat) (hok : S.ok k = true) :
    recAnalyze S ctl (fuel + 1) step aI tI tT cur k =
      some ⟨0,
        (if ctl.printPer ≠ 0 ∧ ctl.printPer ≤ (syncConfig ctl step aI tI tT cur).1.counter + 1
          then { (syncConfig ctl step aI tI tT cur).1 with counter := 0 }
          else { (syncConfig ctl step aI tI tT cur).1 with
                  counter := (syncConfig ctl step aI tI tT cur).1.counter + 1 }),
        k + 1, (syncConfig ctl step aI tI tT cur).2 ++ [Event.analyze step true]⟩ := by
  simp only [recAnalyze, hok, if_true]

theorem recAnalyze_fail_add (S : Solver) (ctl : Control) (fuel : Nat) (step : ℚ)
    (aI tI : Nat) (tT : ℚ) (cur : Current) (k : Nat) (hok : S.ok k = false)
    (ha : ctl.tryAddTestTimes = true) (hne : tI ≠ ctl.testIterTimesMore)
    (hnorm : S.lastNorm k < ctl.normTol) :
    recAnalyze S ctl (fuel + 1) step aI tI tT cur k =
      Option.map
        (withTrace ((syncConfig ctl step aI tI tT cur).2 ++ [Event.analyze step false]))
        (recAnalyze S ctl fuel step aI ctl.testIterTimesMore tT
          { (syncConfig ctl step aI tI tT cur).1 with
              counter := (syncConfig ctl step aI tI tT cur).1.counter + 1 } (k + 1)) := by
  simp only [recAnalyze, hok, Bool.false_eq_true, if_false]
  rw [if_pos ⟨ha, hne, hnorm⟩]

theorem recAnalyze_fail_bcd (S : Solver) (ctl : Control) (fuel : Nat) (step : ℚ)
    (aI tI : Nat) (tT : ℚ) (cur : Current) (k : Nat) (hok : S.ok k = false)
    (ha : ¬(ctl.tryAddTestTimes = true ∧ tI ≠ ctl.testIterTimesMore ∧
        S.lastNorm k < ctl.normTol)) :
    recAnalyze S ctl (fuel + 1) step aI tI tT cur k =
      Option.map
        (withTrace ((syncConfig ctl step aI tI tT cur).2 ++ [Event.analyze step false]))
        (ladderBCD (recAnalyze S ctl fuel) ctl step aI tI tT
          { (syncConfig ctl step aI tI tT cur).1 with
              counter := (syncConfig ctl step aI tI tT cur).1.counter + 1 } (k + 1)) := by
  simp only [recAnalyze, hok, Bool.false_eq_true, if_false]
  rw [if_neg ha]

theorem ladderBCD_alter (recur : ℚ → Nat → Nat → ℚ → Current → Nat → Option Res)
    (ctl : Control) (step : ℚ) (aI tI : Nat) (tT : ℚ) (cur : Current) (k : Nat)
    (hb : ctl.tryAlterAlgoTypes = true ∧ aI + 1 < ctl.algoTypes.length) :
    ladderBCD recur ctl step aI tI tT cur k = recur step (aI + 1) tI tT cur k := by
  simp only [ladderBCD]
  rw [if_pos hb]

theorem ladderBCD_loose (recur : ℚ → Nat → Nat → ℚ → Current → Nat → Option Res)
    (ctl : Control) (step : ℚ) (aI tI : Nat) (tT : ℚ) (cur : Current) (k : Nat)
    (hb : ¬(ctl.tryAlterAlgoTypes = true ∧ aI + 1 < ctl.algoTypes.length))
    (hc : |step| < 2 * ctl.minStep)
    (hl : ctl.tryLooseTestTol = true ∧ cur.testTol ≠ ctl.looseTestTolTo) :
    ladderBCD recur ctl step aI tI tT cur k =
      recur step 0 ctl.testIterTimes ctl.looseTestTolTo cur k := by
  simp only [ladderBCD]
  rw [if_neg hb, if_pos hc, if_pos hl]

theorem ladderBCD_floor (recur : ℚ → Nat → Nat → ℚ → Current → Nat → Option Res)
    (ctl : Control) (step : ℚ) (aI tI : Nat) (tT : ℚ) (cur : Current) (k : Nat)
    (hb : ¬(ctl.tryAlterAlgoTypes = true ∧ aI + 1 < ctl.algoTypes.length))
    (hc : |step| < 2 * ctl.minStep)
    (hl : ¬(ctl.tryLooseTestTol = true ∧ cur.testTol ≠ ctl.looseTestTolTo)) :
    ladderBCD recur ctl step aI tI tT cur k = some ⟨-1, cur, k, []⟩ := by
  simp only [ladderBCD]
  rw [if_neg hb, if_pos hc, if_neg hl]

theorem ladderBCD_bisect (recur : ℚ → Nat → Nat → ℚ → Current → Nat → Option Res)
    (ctl : Control) (step : ℚ) (aI tI : Nat) (tT : ℚ) (cur : Current) (k : Nat)
    (hb : ¬(ctl.tryAlterAlgoTypes = true ∧ aI + 1 < ctl.algoTypes.length))
    (hc : ¬(|step| < 2 * ctl.minStep)) :
    ladderBCD recur ctl step aI tI tT cur k =
      match recur (bisectNew ctl step) 0 tI tT cur k with
      | none => none
      | some r1 =>
        if r1.code < 0 then some ⟨-1, r1.cur, r1.attempts, r1.trace⟩
        else
          match recur (bisectRest ctl step) 0 tI tT r1.cur r1.attempts with
          | none => none
          | some r2 =>
            if r2.code < 0 then some ⟨-1, r2.cur, r2.attempts, r1.trace ++ r2.trace⟩
            else some ⟨1, r2.cur, r2.attempts, r1.trace ++ r2.trace⟩ := by
  simp only [ladderBCD]
  rw [if_neg hb, if_neg hc]

/-! Field values of the concrete control dictionaries. -/

theorem ctlBase_p1 : ctlBase.analysisStatic = true := rfl
theorem ctlBase_p2 : ctlBase.testTol = 3 := rfl
theorem ctlBase_p3 : ctlBase.testIterTimes = 7 := rfl
theorem ctlBase_p4 : ctlBase.tryAddTestTimes = false := rfl
theorem ctlBase_p5 : ctlBase.testIterTimesMore = 50 := rfl
theorem ctlBase_p6 : ctlBase.tryLooseTestTol = false := rfl
theorem ctlBase_p7 : ctlBase.looseTestTolTo = 7 := rfl
theorem ctlBase_p8 : ctlBase.tryAlterAlgoTypes = false := rfl
theorem ctlBase_p9 : ctlBase.algoTypes = [40] := rfl
theorem ctlBase_p10 : ctlBase.minStep = 1 := rfl
theorem ctlBase_p11 : ctlBase.printPer = 0 := rfl
theorem ctlBase_p12 : ctlBase.normTol = 1000 := rfl
theorem ctlBase_p13 : ctlBase.relaxation = 1/2 := rfl

theorem ctlLoose_p1 : ctlLoose.analysisStatic = true := rfl
theorem ctlLoose_p2 : ctlLoose.testTol = 3 := rfl
theorem ctlLoose_p3 : ctlLoose.testIterTimes = 7 := rfl
theorem ctlLoose_p4 : ctlLoose.tryAddTestTimes = false := rfl
theorem ctlLoose_p5 : ctlLoose.testIterTimesMore = 50 := rfl
theorem ctlLoose_p6 : ctlLoose.tryLooseTestTol = true := rfl
theorem ctlLoose_p7 : ctlLoose.looseTestTolTo = 7 := rfl
theorem ctlLoose_p8 : ctlLoose.tryAlterAlgoTypes = false := rfl
theorem ctlLoose_p9 : ctlLoose.algoTypes = [40] := rfl
theorem ctlLoose_p10 : ctlLoose.minStep = 1 := rfl
theorem ctlLoose_p11 : ctlLoose.printPer = 0 := rfl
theorem ctlLoose_p12 : ctlLoose.normTol = 1000 := rfl

theorem ctlAdd_p1 : ctlAdd.analysisStatic = true := rfl
theorem ctlAdd_p2 : ctlAdd.testTol = 3 := rfl
theorem ctlAdd_p3 : ctlAdd.testIterTimes = 7 := rfl
theorem ctlAdd_p4 : ctlAdd.tryAddTestTimes = true := rfl
theorem ctlAdd_p5 : ctlAdd.testIterTimesMore = 50 := rfl
theorem ctlAdd_p12 : ctlAdd.normTol = 1000 := rfl

theorem ctlBad_p1 : ctlBad.analysisStatic = true := rfl
theorem ctlBad_p9 : ctlBad.algoTypes = [99] := rfl

/-! The bisection arithmetic of lines 473-490. -/

theorem bisectNew_of_pos (ctl : Control) (step : ℚ) (hm : 0 < ctl.minStep)
    (h : 0 < step * ctl.relaxation) :
    bisectNew ctl step =
      if step * ctl.relaxation < ctl.minStep then ctl.minStep
      else step * ctl.relaxation := by
  simp only [bisectNew]
  split_ifs with h1 h2 h3 h4 h5 h6 <;> try rfl
  all_goals first
    | (exfalso; rcases h1 with ⟨ha, hb⟩; linarith)
    | (exfalso; rcases h2 with ⟨ha, hb⟩; linarith)
    | (exfalso; rcases h3 with ⟨ha, hb⟩; linarith)
    | (exfalso; push_neg at h1; linarith [h1 h])

theorem bisectNew_of_neg (ctl : Control) (step : ℚ) (hm : 0 < ctl.minStep)
    (h : step * ctl.relaxation < 0) :
    bisectNew ctl step =
      if -ctl.minStep < step * ctl.relaxation then -ctl.minStep
      else step * ctl.relaxation := by
  simp only [bisectNew]
  have hinner :
      (if step * ctl.relaxation > 0 ∧ step * ctl.relaxation < ctl.minStep then
        ctl.minStep else step * ctl.relaxation) = step * ctl.relaxation :=
    if_neg (by rintro ⟨ha, _⟩; linarith)
  rw [hinner]
  by_cases h2 : -ctl.minStep < step * ctl.relaxation
  · rw [if_pos ⟨h, h2⟩, if_pos h2]
  · rw [if_neg (fun hc => h2 hc.2), if_neg h2]

theorem bisectNew_pos_facts (ctl : Control) (step : ℚ) (hm : 0 < ctl.minStep)
    (hr0 : 0 < ctl.relaxation) (hr1 : ctl.relaxation < 1) (hs : 0 < step) :
    0 < bisectNew ctl step ∧ ctl.minStep ≤ bisectNew ctl step ∧
      (2 * ctl.minStep ≤ step → bisectNew ctl step < step) := by
  have h : 0 < step * ctl.relaxation := mul_pos hs hr0
  rw [bisectNew_of_pos ctl step hm h]
  have hlt : step * ctl.relaxation < step := by nlinarith
  split_ifs with h1
  · exact ⟨hm, le_refl _, fun h2 => by linarith⟩
  · push_neg at h1
    exact ⟨h, h1, fun _ => hlt⟩

theorem bisectNew_neg_facts (ctl : Control) (step : ℚ) (hm : 0 < ctl.minStep)
    (hr0 : 0 < ctl.relaxation) (hr1 : ctl.relaxation < 1) (hs : step < 0) :
    bisectNew ctl step < 0 ∧ bisectNew ctl step ≤ -ctl.minStep ∧
      (2 * ctl.minStep ≤ -step → step < bisectNew ctl step) := by
  have h : step * ctl.relaxation < 0 := mul_neg_of_neg_of_pos hs hr0
  rw [bisectNew_of_neg ctl step hm h]
  have hlt : step < step * ctl.relaxation := by nlinarith
  split_ifs with h1
  · exact ⟨by linarith, le_refl _, fun h2 => by linarith⟩
  · push_neg at h1
    exact ⟨h, h1, fun _ => hlt⟩

theorem bisect_children_bound (ctl : Control) (step : ℚ) (hm : 0 < ctl.minStep)
    (hr0 : 0 < ctl.relaxation) (hr1 : ctl.relaxation < 1)
    (hstep : 2 * ctl.minStep ≤ |step|) :
    (|bisectNew ctl step| < 2 * ctl.minStep ∨
      |bisectNew ctl step| ≤ max ctl.relaxation (1 - ctl.relaxation) * |step|) ∧
    |bisectRest ctl step| ≤ max ctl.relaxation (1 - ctl.relaxation) * |step| := by
  have hc1 := le_max_left ctl.relaxation (1 - ctl.relaxation)
  have hc2 := le_max_right ctl.relaxation (1 - ctl.relaxation)
  simp only [bisectRest]
  rcases lt_trichotomy step 0 with hs | hs | hs
  · rw [abs_of_neg hs] at hstep ⊢
    have hkey : (1 - ctl.relaxation) * (-step) ≤
        max ctl.relaxation (1 - ctl.relaxation) * (-step) :=
      mul_le_mul_of_nonneg_right hc2 (by linarith)
    have hkey1 : ctl.relaxation * (-step) ≤
        max ctl.relaxation (1 - ctl.relaxation) * (-step) :=
      mul_le_mul_of_nonneg_right hc1 (by linarith)
    have h : step * ctl.relaxation < 0 := mul_neg_of_neg_of_pos hs hr0
    rw [bisectNew_of_neg ctl step hm h]
    split_ifs with hcl
    · constructor
      · left
        rw [abs_of_neg (by linarith : -ctl.minStep < (0:ℚ))]
        linarith
      · rw [abs_of_neg (by linarith : step - -ctl.minStep < (0:ℚ))]
        nlinarith [hkey]
    · push_neg at hcl
      constructor
      · right
        rw [abs_of_neg h]
        nlinarith [hkey1]
      · rw [abs_of_neg (by nlinarith : step - step * ctl.relaxation < (0:ℚ))]
        nlinarith [hkey]
  · exfalso; rw [hs] at hstep; simp at hstep; linarith
  · rw [abs_of_pos hs] at hstep ⊢
    have hkey : (1 - ctl.relaxation) * step ≤
        max ctl.relaxation (1 - ctl.relaxation) * step :=
      mul_le_mul_of_nonneg_right hc2 (by linarith)
    have hkey1 : ctl.relaxation * step ≤
        max ctl.relaxation (1 - ctl.relaxation) * step :=
      mul_le_mul_of_nonneg_right hc1 (by linarith)
    have h : 0 < step * ctl.relaxation := mul_pos hs hr0
    rw [bisectNew_of_pos ctl step hm h]
    split_ifs with hcl
    · constructor
      · left
        rw [abs_of_pos hm]
        linarith
      · rw [abs_of_pos (by linarith : (0:ℚ) < step - ctl.minStep)]
        nlinarith [hkey]
    · push_neg at hcl
      constructor
      · right
        rw [abs_of_pos h]
        nlinarith [hkey1]
      · rw [abs_of_pos (by nlinarith : (0:ℚ) < step - step * ctl.relaxation)]
        nlinarith [hkey]

theorem bisectTerm_of_pow (ctl : Control) (hm : 0 < ctl.minStep)
    (hr0 : 0 < ctl.relaxation) (hr1 : ctl.relaxation < 1) :
    ∀ (n : ℕ) (s : ℚ),
      |s| * max ctl.relaxation (1 - ctl.relaxation) ^ n < 2 * ctl.minStep →
      BisectTerm ctl s := by
  have hc0 : (0:ℚ) < max ctl.relaxation (1 - ctl.relaxation) :=
    lt_of_lt_of_le hr0 (le_max_left _ _)
  intro n
  induction n with
  | zero =>
    intro s hsn
    exact BisectTerm.floor s (by simpa using hsn)
  | succ n ih =>
    intro s hsn
    by_cases hfloor : |s| < 2 * ctl.minStep
    · exact BisectTerm.floor s hfloor
    · push_neg at hfloor
      obtain ⟨hnew, hrest⟩ := bisect_children_bound ctl s hm hr0 hr1 hfloor
      have hpow : (0:ℚ) ≤ max ctl.relaxation (1 - ctl.relaxation) ^ n :=
        pow_nonneg hc0.le n
      have hexp : max ctl.relaxation (1 - ctl.relaxation) * |s| *
          max ctl.relaxation (1 - ctl.relaxation) ^ n =
          |s| * max ctl.relaxation (1 - ctl.relaxation) ^ (n + 1) := by
        ring
      refine BisectTerm.split s ?_ ?_
      · rcases hnew with hlt | hle
        · exact BisectTerm.floor _ hlt
        · apply ih
          calc |bisectNew ctl s| * max ctl.relaxation (1 - ctl.relaxation) ^ n
              ≤ max ctl.relaxation (1 - ctl.relaxation) * |s| *
                max ctl.relaxation (1 - ctl.relaxation) ^ n :=
                mul_le_mul_of_nonneg_right hle hpow
            _ = |s| * max ctl.relaxation (1 - ctl.relaxation) ^ (n + 1) := hexp
            _ < 2 * ctl.minStep := hsn
      · apply ih
        calc |bisectRest ctl s| * max ctl.relaxation (1 - ctl.relaxation) ^ n
            ≤ max ctl.relaxation (1 - ctl.relaxation) * |s| *
              max ctl.relaxation (1 - ctl.relaxation) ^ n :=
              mul_le_mul_of_nonneg_right hrest hpow
          _ = |s| * max ctl.relaxation (1 - ctl.relaxation) ^ (n + 1) := hexp
          _ < 2 * ctl.minStep := hsn

theorem bisectTerm_all (ctl : Control) (hm : 0 < ctl.minStep)
    (hr0 : 0 < ctl.relaxation) (hr1 : ctl.relaxation < 1) (s : ℚ) :
    BisectTerm ctl s := by
  by_cases h0 : |s| < 2 * ctl.minStep
  · exact BisectTerm.floor s h0
  · push_neg at h0
    have hspos : (0:ℚ) < |s| := lt_of_lt_of_le (by linarith) h0
    have hc1 : max ctl.relaxation (1 - ctl.relaxation) < 1 := max_lt hr1 (by linarith)
    obtain ⟨n, hn⟩ :=
      exists_pow_lt_of_lt_one
        (show (0:ℚ) < 2 * ctl.minStep / |s| by positivity) hc1
    apply bisectTerm_of_pow ctl hm hr0 hr1 n
    have := (lt_div_iff hspos).mp hn
    linarith [this, mul_comm (max ctl.relaxation (1 - ctl.relaxation) ^ n) |s|]

/-- C3: for every step with `|step| ≥ 2*minStep`, `minStep > 0` and relaxation
strictly between 0 and 1, the bisection of `RecursiveAnalyze` (lines 473-490)
computes `stepNew = step*relaxation` clamped in magnitude to at least `minStep`
with the sign preserved, and `stepRest = step - stepNew`; both halves are
strictly smaller than `|step|` in magnitude, and repeated bisection reaches a
step with `|step| < 2*minStep` after finitely many divisions, so the recursion
cannot bisect forever (`BisectTerm` holds at every step). -/
theorem C3_bisection_decreases_and_terminates (ctl : Control) (step : ℚ)
    (hm : 0 < ctl.minStep) (hr0 : 0 < ctl.relaxation) (hr1 : ctl.relaxation < 1)
    (hstep : 2 * ctl.minStep ≤ |step|) :
    bisectRest ctl step = step - bisectNew ctl step ∧
    (0 < step → 0 < bisectNew ctl step ∧ ctl.minStep ≤ bisectNew ctl step) ∧
    (step < 0 → bisectNew ctl step < 0 ∧ bisectNew ctl step ≤ -ctl.minStep) ∧
    |bisectNew ctl step| < |step| ∧ |bisectRest ctl step| < |step| ∧
    BisectTerm ctl step := by
  refine ⟨rfl, ?_, ?_, ?_, ?_, bisectTerm_all ctl hm hr0 hr1 step⟩
  · intro hs
    obtain ⟨ha, hb, _⟩ := bisectNew_pos_facts ctl step hm hr0 hr1 hs
    exact ⟨ha, hb⟩
  · intro hs
    obtain ⟨ha, hb, _⟩ := bisectNew_neg_facts ctl step hm hr0 hr1 hs
    exact ⟨ha, hb⟩
  · rcases lt_trichotomy step 0 with hs | hs | hs
    · obtain ⟨ha, hb, hc⟩ := bisectNew_neg_facts ctl step hm hr0 hr1 hs
      rw [abs_of_neg hs] at hstep ⊢
      rw [abs_of_neg ha]
      linarith [hc hstep]
    · exfalso; rw [hs] at hstep; simp at hstep; linarith
    · obtain ⟨ha, hb, hc⟩ := bisectNew_pos_facts ctl step hm hr0 hr1 hs
      rw [abs_of_pos hs] at hstep ⊢
      rw [abs_of_pos ha]
      exact hc hstep
  · rcases lt_trichotomy step 0 with hs | hs | hs
    · obtain ⟨ha, hb, hc⟩ := bisectNew_neg_facts ctl step hm hr0 hr1 hs
      rw [abs_of_neg hs] at hstep ⊢
      have hrest : bisectRest ctl step < 0 := by
        simp only [bisectRest]; linarith [hc hstep]
      rw [abs_of_neg hrest]
      simp only [bisectRest]
      linarith
    · exfalso; rw [hs] at hstep; simp at hstep; linarith
    · obtain ⟨ha, hb, hc⟩ := bisectNew_pos_facts ctl step hm hr0 hr1 hs
      rw [abs_of_pos hs] at hstep ⊢
      have hrest : 0 < bisectRest ctl step := by
        simp only [bisectRest]; linarith [hc hstep]
      rw [abs_of_pos hrest]
      simp only [bisectRest]
      linarith

/-- Witness for C3 at `ctlBase` (minStep 1, relaxation 1/2) and step 4. -/
theorem C3_bisection_decreases_and_terminates_witness :
    2 * ctlBase.minStep ≤ |(4:ℚ)| ∧
    (bisectRest ctlBase 4 = 4 - bisectNew ctlBase 4 ∧
      (0 < (4:ℚ) → 0 < bisectNew ctlBase 4 ∧ ctlBase.minStep ≤ bisectNew ctlBase 4) ∧
      ((4:ℚ) < 0 → bisectNew ctlBase 4 < 0 ∧ bisectNew ctlBase 4 ≤ -ctlBase.minStep) ∧
      |bisectNew ctlBase 4| < |(4:ℚ)| ∧ |bisectRest ctlBase 4| < |(4:ℚ)| ∧
      BisectTerm ctlBase 4) :=
  ⟨by rw [ctlBase_p10]; norm_num,
    C3_bisection_decreases_and_terminates ctlBase 4
      (by rw [ctlBase_p10]; norm_num) (by rw [ctlBase_p13]; norm_num)
      (by rw [ctlBase_p13]; norm_num) (by rw [ctlBase_p10]; norm_num)⟩

end SmartAnalyze

namespace SmartAnalyze

/-- C1: on a failed attempt with `tryAddTestTimes` enabled and
`testIterTimes ≠ testIterTimesMore`, if the last solver norm is below `normTol`
the very next action is the recursive call with
`testIterTimes = testIterTimesMore` and the same step, algoIndex and testTol;
otherwise the escalation is skipped and control falls through to the remaining
ladder rungs (switch algorithm, step floor, bisection). -/
theorem C1_add_test_times_escalation (S : Solver) (ctl : Control) (fuel : Nat)
    (step : ℚ) (aI tI : Nat) (tT : ℚ) (cur : Current) (k : Nat)
    (hfail : S.ok k = false) (hflag : ctl.tryAddTestTimes = true)
    (hne : tI ≠ ctl.testIterTimesMore) :
    (S.lastNorm k < ctl.normTol →
      recAnalyze S ctl (fuel + 1) step aI tI tT cur k =
        Option.map (withTrace ((syncConfig ctl step aI tI tT cur).2 ++
            [Event.analyze step false]))
          (recAnalyze S ctl fuel step aI ctl.testIterTimesMore tT
            { (syncConfig ctl step aI tI tT cur).1 with
                counter := (syncConfig ctl step aI tI tT cur).1.counter + 1 }
            (k + 1))) ∧
    (¬ S.lastNorm k < ctl.normTol →
      recAnalyze S ctl (fuel + 1) step aI tI tT cur k =
        Option.map (withTrace ((syncConfig ctl step aI tI tT cur).2 ++
            [Event.analyze step false]))
          (ladderBCD (recAnalyze S ctl fuel) ctl step aI tI tT
            { (syncConfig ctl step aI tI tT cur).1 with
                counter := (syncConfig ctl step aI tI tT cur).1.counter + 1 }
            (k + 1))) :=
  ⟨fun hnorm => recAnalyze_fail_add S ctl fuel step aI tI tT cur k hfail hflag hne hnorm,
   fun hnorm => recAnalyze_fail_bcd S ctl fuel step aI tI tT cur k hfail
     (fun hcon => hnorm hcon.2.2)⟩

/-- Witness for C1: `ctlAdd` with a first-attempt failure at norm 5 < 1000. -/
theorem C1_add_test_times_escalation_witness :
    solverFailFirst.ok 0 = false ∧
    recAnalyze solverFailFirst ctlAdd (1 + 1) 1 0 7 3 ⟨0, 7, 3, 0, 0, 1, 1⟩ 0 =
      Option.map (withTrace ((syncConfig ctlAdd 1 0 7 3 ⟨0, 7, 3, 0, 0, 1, 1⟩).2 ++
          [Event.analyze 1 false]))
        (recAnalyze solverFailFirst ctlAdd 1 1 0 ctlAdd.testIterTimesMore 3
          { (syncConfig ctlAdd 1 0 7 3 ⟨0, 7, 3, 0, 0, 1, 1⟩).1 with
              counter := (syncConfig ctlAdd 1 0 7 3 ⟨0, 7, 3, 0, 0, 1, 1⟩).1.counter + 1 }
          (0 + 1)) :=
  ⟨rfl,
    (C1_add_test_times_escalation solverFailFirst ctlAdd 1 1 0 7 3
      ⟨0, 7, 3, 0, 0, 1, 1⟩ 0 rfl ctlAdd_p4
      (by rw [ctlAdd_p5]; decide)).1
      (by rw [show solverFailFirst.lastNorm 0 = 5 from rfl, ctlAdd_p12]; norm_num)⟩

end SmartAnalyze

namespace SmartAnalyze

theorem recAnalyze_trace_ne (S : Solver) (ctl : Control) (fuel : Nat) (step : ℚ)
    (aI tI : Nat) (tT : ℚ) (cur : Current) (k : Nat) (r : Res)
    (h : recAnalyze S ctl fuel step aI tI tT cur k = some r) : r.trace ≠ [] := by
  cases fuel with
  | zero => simp [recAnalyze] at h
  | succ n =>
    have hev : (syncConfig ctl step aI tI tT cur).2 ++ [Event.analyze step (S.ok k)] ≠ [] := by
      simp
    by_cases hok : S.ok k = true
    · rw [recAnalyze_ok S ctl n step aI tI tT cur k hok] at h
      obtain rfl : _ = r := Option.some.inj h
      rw [hok] at hev
      exact hev
    · have hok' : S.ok k = false := by
        cases hS : S.ok k
        · rfl
        · exact absurd hS hok
      rw [hok'] at hev
      by_cases hA : ctl.tryAddTestTimes = true ∧ tI ≠ ctl.testIterTimesMore ∧
          S.lastNorm k < ctl.normTol
      · rw [recAnalyze_fail_add S ctl n step aI tI tT cur k hok' hA.1 hA.2.1 hA.2.2] at h
        obtain ⟨r', _, rfl⟩ := Option.map_eq_some'.mp h
        simp only [withTrace]
        intro hcon
        exact hev (List.append_eq_nil.mp hcon).1
      · rw [recAnalyze_fail_bcd S ctl n step aI tI tT cur k hok' hA] at h
        obtain ⟨r', _, rfl⟩ := Option.map_eq_some'.mp h
        simp only [withTrace]
        intro hcon
        exact hev (List.append_eq_nil.mp hcon).1

end SmartAnalyze

namespace SmartAnalyze

theorem ladderBCD_fail_shape (recur : ℚ → Nat → Nat → ℚ → Current → Nat → Option Res)
    (ctl : Control) (step : ℚ) (aI tI : Nat) (tT : ℚ) (cur : Current) (k : Nat) (r : Res)
    (Hrec : ∀ s' a' i' t' c' k' r', recur s' a' i' t' c' k' = some r' → r'.code < 0 →
      r'.code = -1 ∧ (ctl.tryLooseTestTol = false ∨ r'.cur.testTol = ctl.looseTestTolTo) ∧
      ∃ s, r'.trace.getLast? = some (Event.analyze s false) ∧ |s| < 2 * ctl.minStep)
    (Hne : ∀ s' a' i' t' c' k' r', recur s' a' i' t' c' k' = some r' → r'.trace ≠ [])
    (h : ladderBCD recur ctl step aI tI tT cur k = some r) (hcode : r.code < 0) :
    (r.code = -1 ∧ (ctl.tryLooseTestTol = false ∨ r.cur.testTol = ctl.looseTestTolTo) ∧
      ∃ s, r.trace.getLast? = some (Event.analyze s false) ∧ |s| < 2 * ctl.minStep) ∨
    (r = ⟨-1, cur, k, []⟩ ∧
      ¬(ctl.tryLooseTestTol = true ∧ cur.testTol ≠ ctl.looseTestTolTo) ∧
      |step| < 2 * ctl.minStep) := by
  by_cases hb : ctl.tryAlterAlgoTypes = true ∧ aI + 1 < ctl.algoTypes.length
  · rw [ladderBCD_alter recur ctl step aI tI tT cur k hb] at h
    exact Or.inl (Hrec _ _ _ _ _ _ _ h hcode)
  · by_cases hc : |step| < 2 * ctl.minStep
    · by_cases hl : ctl.tryLooseTestTol = true ∧ cur.testTol ≠ ctl.looseTestTolTo
      · rw [ladderBCD_loose recur ctl step aI tI tT cur k hb hc hl] at h
        exact Or.inl (Hrec _ _ _ _ _ _ _ h hcode)
      · rw [ladderBCD_floor recur ctl step aI tI tT cur k hb hc hl] at h
        obtain rfl : _ = r := Option.some.inj h
        exact Or.inr ⟨rfl, hl, hc⟩
    · rw [ladderBCD_bisect recur ctl step aI tI tT cur k hb hc] at h
      cases hr1 : recur (bisectNew ctl step) 0 tI tT cur k with
      | none => rw [hr1] at h; simp at h
      | some r1 =>
        rw [hr1] at h
        dsimp only at h
        by_cases h1 : r1.code < 0
        · rw [if_pos h1] at h
          obtain rfl : _ = r := Option.some.inj h
          obtain ⟨e1, e2, e3⟩ := Hrec _ _ _ _ _ _ _ hr1 h1
          exact Or.inl ⟨rfl, e2, e3⟩
        · rw [if_neg h1] at h
          cases hr2 : recur (bisectRest ctl step) 0 tI tT r1.cur r1.attempts with
          | none => rw [hr2] at h; simp at h
          | some r2 =>
            rw [hr2] at h
            dsimp only at h
            by_cases h2 : r2.code < 0
            · rw [if_pos h2] at h
              obtain rfl : _ = r := Option.some.inj h
              obtain ⟨e1, e2, e3⟩ := Hrec _ _ _ _ _ _ _ hr2 h2
              obtain ⟨s, hs1, hs2⟩ := e3
              refine Or.inl ⟨rfl, e2, ⟨s, ?_, hs2⟩⟩
              show (r1.trace ++ r2.trace).getLast? = some (Event.analyze s false)
              rw [List.getLast?_append_of_ne_nil r1.trace (Hne _ _ _ _ _ _ _ hr2)]
              exact hs1
            · rw [if_neg h2] at h
              obtain rfl : _ = r := Option.some.inj h
              simp at hcode

end SmartAnalyze

namespace SmartAnalyze

theorem recAnalyze_fail_shape (S : Solver) (ctl : Control) :
    ∀ (fuel : Nat) (step : ℚ) (aI tI : Nat) (tT : ℚ) (cur : Current) (k : Nat) (r : Res),
      recAnalyze S ctl fuel step aI tI tT cur k = some r → r.code < 0 →
      r.code = -1 ∧ (ctl.tryLooseTestTol = false ∨ r.cur.testTol = ctl.looseTestTolTo) ∧
      ∃ s, r.trace.getLast? = some (Event.analyze s false) ∧ |s| < 2 * ctl.minStep := by
  intro fuel
  induction fuel with
  | zero => intro step aI tI tT cur k r h; simp [recAnalyze] at h
  | succ n ih =>
    intro step aI tI tT cur k r h hcode
    by_cases hok : S.ok k = true
    · rw [recAnalyze_ok S ctl n step aI tI tT cur k hok] at h
      obtain rfl : _ = r := Option.some.inj h
      simp at hcode
    · have hok' : S.ok k = false := by
        cases hS : S.ok k
        · rfl
        · exact absurd hS hok
      by_cases hA : ctl.tryAddTestTimes = true ∧ tI ≠ ctl.testIterTimesMore ∧
          S.lastNorm k < ctl.normTol
      · rw [recAnalyze_fail_add S ctl n step aI tI tT cur k hok' hA.1 hA.2.1 hA.2.2] at h
        obtain ⟨r', hr', rfl⟩ := Option.map_eq_some'.mp h
        simp only [withTrace] at hcode ⊢
        obtain ⟨e1, e2, ⟨s, hs1, hs2⟩⟩ := ih step aI ctl.testIterTimesMore tT _ (k + 1) r' hr' hcode
        refine ⟨e1, e2, ⟨s, ?_, hs2⟩⟩
        rw [List.getLast?_append_of_ne_nil _
          (recAnalyze_trace_ne S ctl n step aI ctl.testIterTimesMore tT _ (k + 1) r' hr')]
        exact hs1
      · rw [recAnalyze_fail_bcd S ctl n step aI tI tT cur k hok' hA] at h
        obtain ⟨r', hr', rfl⟩ := Option.map_eq_some'.mp h
        simp only [withTrace] at hcode ⊢
        rcases ladderBCD_fail_shape (recAnalyze S ctl n) ctl step aI tI tT _ (k + 1) r'
            (fun s' a' i' t' c' k' r'' hr'' hc'' => ih s' a' i' t' c' k' r'' hr'' hc'')
            (fun s' a' i' t' c' k' r'' hr'' => recAnalyze_trace_ne S ctl n s' a' i' t' c' k' r'' hr'')
            hr' hcode with hL | hR
        · obtain ⟨e1, e2, ⟨s, hs1, hs2⟩⟩ := hL
          refine ⟨e1, e2, ⟨s, ?_, hs2⟩⟩
          have hne2 : r'.trace ≠ [] := by
            intro hnil
            rw [hnil] at hs1
            simp at hs1
          rw [List.getLast?_append_of_ne_nil _ hne2]
          exact hs1
        · obtain ⟨rfl, hl, hc⟩ := hR
          refine ⟨rfl, ?_, ⟨step, ?_, hc⟩⟩
          · by_cases hflag : ctl.tryLooseTestTol = true
            · right
              by_contra hne2
              exact hl ⟨hflag, hne2⟩
            · left
              cases hF : ctl.tryLooseTestTol
              · rfl
              · exact absurd hF hflag
          · dsimp only
            rw [List.append_nil, List.getLast?_append_of_ne_nil _ (by simp)]
            rfl

end SmartAnalyze

namespace SmartAnalyze

theorem testsUse_append (q : ℚ) (n : Nat) (a b : List Event) :
    testsUse q n (a ++ b) = (testsUse q n a && testsUse q n b) := by
  simp [testsUse, List.all_append]

theorem testsUse_syncConfig (ctl : Control) (step : ℚ) (aI tI : Nat) (tT : ℚ)
    (cur : Current) : testsUse tT tI (syncConfig ctl step aI tI tT cur).2 = true := by
  simp only [syncConfig]
  split_ifs <;> simp [testsUse]

theorem recAnalyze_always_fail (ctl : Control) (S : Solver)
    (hA : ctl.tryAddTestTimes = false) (hB : ctl.tryAlterAlgoTypes = false)
    (hL : ctl.tryLooseTestTol = false) (hS : ∀ n, S.ok n = false) :
    ∀ (fuel : Nat) (step : ℚ) (aI tI : Nat) (tT : ℚ) (cur : Current) (k : Nat) (r : Res),
      recAnalyze S ctl fuel step aI tI tT cur k = some r →
      r.code = -1 ∧ testsUse tT tI r.trace = true := by
  intro fuel
  induction fuel with
  | zero => intro step aI tI tT cur k r h; simp [recAnalyze] at h
  | succ n ih =>
    intro step aI tI tT cur k r h
    rw [recAnalyze_fail_bcd S ctl n step aI tI tT cur k (hS k)
      (fun hcon => by rw [hA] at hcon; exact absurd hcon.1 (by decide))] at h
    obtain ⟨r', hr', rfl⟩ := Option.map_eq_some'.mp h
    have hb : ¬(ctl.tryAlterAlgoTypes = true ∧ aI + 1 < ctl.algoTypes.length) := by
      rw [hB]; rintro ⟨hcon, -⟩; exact absurd hcon (by decide)
    have hl : ¬(ctl.tryLooseTestTol = true ∧
        ({ (syncConfig ctl step aI tI tT cur).1 with
            counter := (syncConfig ctl step aI tI tT cur).1.counter + 1 } : Current).testTol ≠
          ctl.looseTestTolTo) := by
      rw [hL]; rintro ⟨hcon, -⟩; exact absurd hcon (by decide)
    have hsync : testsUse tT tI
        ((syncConfig ctl step aI tI tT cur).2 ++ [Event.analyze step false]) = true := by
      rw [testsUse_append, testsUse_syncConfig]
      simp [testsUse]
    by_cases hc : |step| < 2 * ctl.minStep
    · rw [ladderBCD_floor (recAnalyze S ctl n) ctl step aI tI tT _ (k + 1) hb hc hl] at hr'
      obtain rfl : _ = r' := Option.some.inj hr'
      refine ⟨rfl, ?_⟩
      simp only [withTrace]
      rw [testsUse_append, hsync]
      rfl
    · rw [ladderBCD_bisect (recAnalyze S ctl n) ctl step aI tI tT _ (k + 1) hb hc] at hr'
      cases hr1 : recAnalyze S ctl n (bisectNew ctl step) 0 tI tT _ (k + 1) with
      | none => rw [hr1] at hr'; simp at hr'
      | some r1 =>
        rw [hr1] at hr'
        dsimp only at hr'
        obtain ⟨e1, e2⟩ := ih (bisectNew ctl step) 0 tI tT _ (k + 1) r1 hr1
        rw [if_pos (by rw [e1]; decide)] at hr'
        obtain rfl : _ = r' := Option.some.inj hr'
        refine ⟨rfl, ?_⟩
        simp only [withTrace]
        rw [testsUse_append, hsync, e2]
        rfl

end SmartAnalyze

namespace SmartAnalyze

theorem recAnalyze_floor_immediate (ctl : Control) (S : Solver)
    (hA : ctl.tryAddTestTimes = false) (hB : ctl.tryAlterAlgoTypes = false)
    (hL : ctl.tryLooseTestTol = false) (hS : ∀ n, S.ok n = false)
    (fuel : Nat) (step : ℚ) (aI tI : Nat) (tT : ℚ) (cur : Current) (k : Nat)
    (hstep : |step| < 2 * ctl.minStep) :
    recAnalyze S ctl (fuel + 1) step aI tI tT cur k =
      some ⟨-1,
        { (syncConfig ctl step aI tI tT cur).1 with
            counter := (syncConfig ctl step aI tI tT cur).1.counter + 1 },
        k + 1,
        (syncConfig ctl step aI tI tT cur).2 ++ [Event.analyze step false]⟩ := by
  rw [recAnalyze_fail_bcd S ctl fuel step aI tI tT cur k (hS k)
    (fun hcon => by rw [hA] at hcon; exact absurd hcon.1 (by decide))]
  rw [ladderBCD_floor (recAnalyze S ctl fuel) ctl step aI tI tT _ (k + 1)
    (by rw [hB]; rintro ⟨hcon, -⟩; exact absurd hcon (by decide)) hstep
    (by rw [hL]; rintro ⟨hcon, -⟩; exact absurd hcon (by decide))]
  simp [withTrace]

/-- C2: a negative return from `RecursiveAnalyze` is always the code `-1`
produced at the step-floor branch: the final state's tolerance shows loosening
was unavailable (flag off or tolerance already loosened) and the last solver
call of the trace is a failed attempt at a step below `2*minStep`.  With all
`try*` flags off and a solver stub whose every attempt fails, any result is
`-1`, every `ops.test` call of the run uses the unchanged initial
tolerance/iterations (no loosening is ever attempted), and a call whose step is
already below `2*minStep` fails right after its single failed attempt. -/
theorem C2_failed_only_at_floor (ctl : Control) :
    (∀ (S : Solver) (fuel : Nat) (step : ℚ) (aI tI : Nat) (tT : ℚ) (cur : Current)
        (k : Nat) (r : Res),
      recAnalyze S ctl fuel step aI tI tT cur k = some r → r.code < 0 →
      r.code = -1 ∧
      (ctl.tryLooseTestTol = false ∨ r.cur.testTol = ctl.looseTestTolTo) ∧
      ∃ s, r.trace.getLast? = some (Event.analyze s false) ∧ |s| < 2 * ctl.minStep) ∧
    (ctl.tryAddTestTimes = false → ctl.tryAlterAlgoTypes = false →
      ctl.tryLooseTestTol = false → ∀ S : Solver, (∀ n, S.ok n = false) →
      (∀ (fuel : Nat) (step : ℚ) (aI tI : Nat) (tT : ℚ) (cur : Current) (k : Nat) (r : Res),
        recAnalyze S ctl fuel step aI tI tT cur k = some r →
        r.code = -1 ∧ testsUse tT tI r.trace = true) ∧
      (∀ (fuel : Nat) (step : ℚ) (aI tI : Nat) (tT : ℚ) (cur : Current) (k : Nat),
        |step| < 2 * ctl.minStep →
        recAnalyze S ctl (fuel + 1) step aI tI tT cur k =
          some ⟨-1,
            { (syncConfig ctl step aI tI tT cur).1 with
                counter := (syncConfig ctl step aI tI tT cur).1.counter + 1 },
            k + 1,
            (syncConfig ctl step aI tI tT cur).2 ++ [Event.analyze step false]⟩)) :=
  ⟨fun S fuel step aI tI tT cur k r h hc =>
      recAnalyze_fail_shape S ctl fuel step aI tI tT cur k r h hc,
   fun hA hB hL S hS =>
    ⟨fun fuel step aI tI tT cur k r h =>
        recAnalyze_always_fail ctl S hA hB hL hS fuel step aI tI tT cur k r h,
     fun fuel step aI tI tT cur k hstep =>
        recAnalyze_floor_immediate ctl S hA hB hL hS fuel step aI tI tT cur k hstep⟩⟩

/-- Witness for C2: `ctlBase` (all `try*` flags off) with the always-failing
stub, at step 1 with `minStep` 1 (`|1| < 2`). -/
theorem C2_failed_only_at_floor_witness :
    |(1:ℚ)| < 2 * ctlBase.minStep ∧
    recAnalyze solverFail ctlBase (0 + 1) 1 0 7 3 ⟨0, 7, 3, 0, 0, 1, 1⟩ 0 =
      some ⟨-1,
        { (syncConfig ctlBase 1 0 7 3 ⟨0, 7, 3, 0, 0, 1, 1⟩).1 with
            counter := (syncConfig ctlBase 1 0 7 3 ⟨0, 7, 3, 0, 0, 1, 1⟩).1.counter + 1 },
        0 + 1,
        (syncConfig ctlBase 1 0 7 3 ⟨0, 7, 3, 0, 0, 1, 1⟩).2 ++ [Event.analyze 1 false]⟩ :=
  ⟨by rw [ctlBase_p10]; norm_num,
    ((C2_failed_only_at_floor ctlBase).2 ctlBase_p4 ctlBase_p8 ctlBase_p6 solverFail
      (fun n => rfl)).2 0 1 0 7 3 ⟨0, 7, 3, 0, 0, 1, 1⟩ 0
      (by rw [ctlBase_p10]; norm_num)⟩

end SmartAnalyze

namespace SmartAnalyze

theorem allTestTolEq_append (q : ℚ) (a b : List Event) :
    allTestTolEq q (a ++ b) = (allTestTolEq q a && allTestTolEq q b) := by
  simp [allTestTolEq, List.all_append]

theorem allTestTolEq_syncConfig (ctl : Control) (step : ℚ) (aI tI : Nat) (tT : ℚ)
    (cur : Current) : allTestTolEq tT (syncConfig ctl step aI tI tT cur).2 = true := by
  simp only [syncConfig]
  split_ifs <;> simp [allTestTolEq]

theorem recAnalyze_testTol_within (S : Solver) (ctl : Control) :
    ∀ (fuel : Nat) (step : ℚ) (aI tI : Nat) (tT : ℚ) (cur : Current) (k : Nat) (r : Res),
      recAnalyze S ctl fuel step aI tI tT cur k = some r →
      ∀ q n, Event.test q n ∈ r.trace → q = tT ∨ q = ctl.looseTestTolTo := by
  intro fuel
  induction fuel with
  | zero => intro step aI tI tT cur k r h; simp [recAnalyze] at h
  | succ n ih =>
    intro step aI tI tT cur k r h q m hmem
    have hsync : ∀ q' n', Event.test q' n' ∈ (syncConfig ctl step aI tI tT cur).2 → q' = tT := by
      intro q' n' hmem'
      revert hmem'
      simp only [syncConfig]
      split_ifs <;> simp_all
    by_cases hok : S.ok k = true
    · rw [recAnalyze_ok S ctl n step aI tI tT cur k hok] at h
      obtain rfl : _ = r := Option.some.inj h
      simp only [List.mem_append] at hmem
      rcases hmem with hmem | hmem
      · exact Or.inl (hsync q m hmem)
      · simp at hmem
    · have hok' : S.ok k = false := by
        cases hS : S.ok k
        · rfl
        · exact absurd hS hok
      by_cases hA : ctl.tryAddTestTimes = true ∧ tI ≠ ctl.testIterTimesMore ∧
          S.lastNorm k < ctl.normTol
      · rw [recAnalyze_fail_add S ctl n step aI tI tT cur k hok' hA.1 hA.2.1 hA.2.2] at h
        obtain ⟨r', hr', rfl⟩ := Option.map_eq_some'.mp h
        simp only [withTrace, List.mem_append] at hmem
        rcases hmem with (hmem | hmem) | hmem
        · exact Or.inl (hsync q m hmem)
        · simp at hmem
        · exact ih step aI ctl.testIterTimesMore tT _ (k + 1) r' hr' q m hmem
      · rw [recAnalyze_fail_bcd S ctl n step aI tI tT cur k hok' hA] at h
        obtain ⟨r', hr', rfl⟩ := Option.map_eq_some'.mp h
        simp only [withTrace, List.mem_append] at hmem
        rcases hmem with (hmem | hmem) | hmem
        · exact Or.inl (hsync q m hmem)
        · simp at hmem
        · -- event inside the ladder result
          revert hr'
          generalize hcur2 : ({ (syncConfig ctl step aI tI tT cur).1 with
              counter := (syncConfig ctl step aI tI tT cur).1.counter + 1 } : Current) = cur2
          intro hr'
          by_cases hb : ctl.tryAlterAlgoTypes = true ∧ aI + 1 < ctl.algoTypes.length
          · rw [ladderBCD_alter _ ctl step aI tI tT cur2 (k + 1) hb] at hr'
            exact ih step (aI + 1) tI tT cur2 (k + 1) r' hr' q m hmem
          · by_cases hc : |step| < 2 * ctl.minStep
            · by_cases hl : ctl.tryLooseTestTol = true ∧ cur2.testTol ≠ ctl.looseTestTolTo
              · rw [ladderBCD_loose _ ctl step aI tI tT cur2 (k + 1) hb hc hl] at hr'
                rcases ih step 0 ctl.testIterTimes ctl.looseTestTolTo cur2 (k + 1) r' hr'
                    q m hmem with h' | h'
                · exact Or.inr h'
                · exact Or.inr h'
              · rw [ladderBCD_floor _ ctl step aI tI tT cur2 (k + 1) hb hc hl] at hr'
                obtain rfl : _ = r' := Option.some.inj hr'
                simp at hmem
            · rw [ladderBCD_bisect _ ctl step aI tI tT cur2 (k + 1) hb hc] at hr'
              cases hr1 : recAnalyze S ctl n (bisectNew ctl step) 0 tI tT cur2 (k + 1) with
              | none => rw [hr1] at hr'; simp at hr'
              | some r1 =>
                rw [hr1] at hr'
                dsimp only at hr'
                by_cases h1 : r1.code < 0
                · rw [if_pos h1] at hr'
                  obtain rfl : _ = r' := Option.some.inj hr'
                  exact ih (bisectNew ctl step) 0 tI tT cur2 (k + 1) r1 hr1 q m hmem
                · rw [if_neg h1] at hr'
                  cases hr2 : recAnalyze S ctl n (bisectRest ctl step) 0 tI tT r1.cur
                      r1.attempts with
                  | none => rw [hr2] at hr'; simp at hr'
                  | some r2 =>
                    rw [hr2] at hr'
                    dsimp only at hr'
                    have htr : r'.trace = r1.trace ++ r2.trace := by
                      by_cases h2 : r2.code < 0
                      · rw [if_pos h2] at hr'
                        obtain rfl : _ = r' := Option.some.inj hr'
                        rfl
                      · rw [if_neg h2] at hr'
                        obtain rfl : _ = r' := Option.some.inj hr'
                        rfl
                    rw [htr] at hmem
                    rcases List.mem_append.mp hmem with hmem' | hmem'
                    · exact ih (bisectNew ctl step) 0 tI tT cur2 (k + 1) r1 hr1 q m hmem'
                    · exact ih (bisectRest ctl step) 0 tI tT r1.cur r1.attempts r2 hr2 q m hmem'

end SmartAnalyze

namespace SmartAnalyze

/-- C4 (amended): once the escalation recursion is entered with the loosened
tolerance, every `ops.test` call issued below it carries the loosened tolerance
— the loosening is sticky only within that recursive call's subtree; the
orchestrator passes the initial tolerance again for each later increment,
which reconfigures the test back (see the counterexample). -/
theorem C4_loosened_sticky_within_call (S : Solver) (ctl : Control) (fuel : Nat)
    (step : ℚ) (aI tI : Nat) (cur : Current) (k : Nat) (r : Res)
    (h : recAnalyze S ctl fuel step aI tI ctl.looseTestTolTo cur k = some r) :
    allTestTolEq ctl.looseTestTolTo r.trace = true := by
  have hall := recAnalyze_testTol_within S ctl fuel step aI tI ctl.looseTestTolTo cur k r h
  simp only [allTestTolEq, List.all_eq_true]
  intro e he
  cases e with
  | test q m =>
    rcases hall q m he with h' | h' <;> simp [h']
  | algo t => rfl
  | integrator s => rfl
  | analyze s ok => rfl

theorem runSegs_nil (S : Solver) (ctl : Control) (fuel : Nat) (cur : Current) (k : Nat) :
    runSegs S ctl fuel [] cur k = some ⟨0, cur, k, []⟩ := rfl

theorem runSegs_cons_ok (S : Solver) (ctl : Control) (fuel : Nat) (seg : ℚ)
    (rest : List ℚ) (cur : Current) (k : Nat) (r r2 : Res)
    (h1 : recAnalyze S ctl fuel seg 0 ctl.testIterTimes ctl.testTol cur k = some r)
    (hpos : ¬ r.code < 0)
    (h2 : runSegs S ctl fuel rest { r.cur with progress := r.cur.progress + 1 }
      r.attempts = some r2) :
    runSegs S ctl fuel (seg :: rest) cur k =
      some ⟨r2.code, r2.cur, r2.attempts, r.trace ++ r2.trace⟩ := by
  simp only [runSegs, h1]
  rw [if_neg hpos, h2]

theorem smartAnalyzeStatic_eval (S : Solver) (ctl : Control) (maxStep : ℚ)
    (targets : List ℚ) (fuel : Nat) (segs : List ℚ)
    (hplan : planSegsF fuel maxStep targets = some segs) :
    smartAnalyzeStatic S ctl maxStep targets fuel =
      (staticSetupEvents ctl maxStep targets,
        runSegs S ctl fuel segs
          { staticStartCurrent ctl maxStep targets with segs := segs.length } 0) := by
  simp only [smartAnalyzeStatic, hplan]

theorem c4looseInner (fuel : Nat) :
    recAnalyze solverFailFirst ctlLoose (fuel + 1) 1 0 7 7 ⟨0, 7, 3, 1, 0, 2, 1⟩ 1 =
      some ⟨0, ⟨0, 7, 7, 2, 0, 2, 1⟩, 2, [Event.test 7 7, Event.analyze 1 true]⟩ := by
  rw [recAnalyze_ok solverFailFirst ctlLoose fuel 1 0 7 7 ⟨0, 7, 3, 1, 0, 2, 1⟩ 1 rfl]
  norm_num [syncConfig, ctlLoose_p1, ctlLoose_p11]

theorem c4incr1 (fuel : Nat) :
    recAnalyze solverFailFirst ctlLoose (fuel + 2) 1 0 7 3 ⟨0, 7, 3, 0, 0, 2, 1⟩ 0 =
      some ⟨0, ⟨0, 7, 7, 2, 0, 2, 1⟩, 2,
        [Event.analyze 1 false, Event.test 7 7, Event.analyze 1 true]⟩ := by
  have hInner := c4looseInner fuel
  rw [recAnalyze_fail_bcd solverFailFirst ctlLoose (fuel + 1) 1 0 7 3
      ⟨0, 7, 3, 0, 0, 2, 1⟩ 0 rfl (by norm_num [ctlLoose_p4])]
  norm_num [syncConfig, ladderBCD, withTrace, ctlLoose_p1, ctlLoose_p3, ctlLoose_p6,
    ctlLoose_p7, ctlLoose_p8, ctlLoose_p10, -Option.map_eq_some']
  rw [hInner]
  norm_num [withTrace]

theorem c4incr2 (fuel : Nat) :
    recAnalyze solverFailFirst ctlLoose (fuel + 2) 1 0 7 3 ⟨0, 7, 7, 2, 1, 2, 1⟩ 2 =
      some ⟨0, ⟨0, 7, 3, 3, 1, 2, 1⟩, 3, [Event.test 3 7, Event.analyze 1 true]⟩ := by
  rw [recAnalyze_ok solverFailFirst ctlLoose (fuel + 1) 1 0 7 3 ⟨0, 7, 7, 2, 1, 2, 1⟩ 2 rfl]
  norm_num [syncConfig, ctlLoose_p1, ctlLoose_p11]

/-- Counterexample to C4: with loosening enabled (`ctlLoose`, initial tolerance
3, loosened tolerance 7), a run over two increments looses the tolerance to 7
while handling increment 1 (the `Event.test 7 7` call) and then reconfigures
the test back to the initial tolerance 3 at the start of increment 2 (the later
`Event.test 3 7` call). -/
theorem C4_counterexample :
    (smartAnalyzeStatic solverFailFirst ctlLoose 1 [1, 2] 10).2 =
      some ⟨0, ⟨0, 7, 3, 3, 2, 2, 1⟩, 3,
        [Event.analyze 1 false, Event.test 7 7, Event.analyze 1 true,
         Event.test 3 7, Event.analyze 1 true]⟩ := by
  have hplan : planSegsF 10 1 [1, 2] = some [1, 1] := by
    norm_num [planSegsF, planRestF, splitPosF]
  rw [smartAnalyzeStatic_eval solverFailFirst ctlLoose 1 [1, 2] 10 [1, 1] hplan]
  have hcur : ({ staticStartCurrent ctlLoose 1 [1, 2] with
      segs := ([1, 1] : List ℚ).length } : Current) = ⟨0, 7, 3, 0, 0, 2, 1⟩ := by
    norm_num [staticStartCurrent, staticFirstStep, ctlLoose_p2, ctlLoose_p3]
  rw [show (10 : Nat) = 8 + 2 from rfl]
  dsimp only
  rw [hcur]
  have h1 : recAnalyze solverFailFirst ctlLoose (8 + 2) 1 0 ctlLoose.testIterTimes
      ctlLoose.testTol ⟨0, 7, 3, 0, 0, 2, 1⟩ 0 =
      some ⟨0, ⟨0, 7, 7, 2, 0, 2, 1⟩, 2,
        [Event.analyze 1 false, Event.test 7 7, Event.analyze 1 true]⟩ := by
    rw [ctlLoose_p3, ctlLoose_p2]; exact c4incr1 8
  have h2 : recAnalyze solverFailFirst ctlLoose (8 + 2) 1 0 ctlLoose.testIterTimes
      ctlLoose.testTol ⟨0, 7, 7, 2, 1, 2, 1⟩ 2 =
      some ⟨0, ⟨0, 7, 3, 3, 1, 2, 1⟩, 3, [Event.test 3 7, Event.analyze 1 true]⟩ := by
    rw [ctlLoose_p3, ctlLoose_p2]; exact c4incr2 8
  rw [runSegs_cons_ok solverFailFirst ctlLoose (8 + 2) 1 [1] ⟨0, 7, 3, 0, 0, 2, 1⟩ 0
      ⟨0, ⟨0, 7, 7, 2, 0, 2, 1⟩, 2,
        [Event.analyze 1 false, Event.test 7 7, Event.analyze 1 true]⟩
      ⟨0, ⟨0, 7, 3, 3, 2, 2, 1⟩, 3, [Event.test 3 7, Event.analyze 1 true]⟩
      h1 (by decide) ?_]
  · rfl
  · dsimp only
    rw [runSegs_cons_ok solverFailFirst ctlLoose (8 + 2) 1 [] ⟨0, 7, 7, 2, 1, 2, 1⟩ 2
        ⟨0, ⟨0, 7, 3, 3, 1, 2, 1⟩, 3, [Event.test 3 7, Event.analyze 1 true]⟩
        ⟨0, ⟨0, 7, 3, 3, 2, 2, 1⟩, 3, []⟩
        h2 (by decide) (by rw [runSegs_nil])]
    rfl

end SmartAnalyze

namespace SmartAnalyze

/-- Witness for the amended C4 at the loosened recursion of the concrete run. -/
theorem C4_loosened_sticky_within_call_witness :
    allTestTolEq ctlLoose.looseTestTolTo [Event.test 7 7, Event.analyze 1 true] = true :=
  C4_loosened_sticky_within_call solverFailFirst ctlLoose (0 + 1) 1 0 7
    ⟨0, 7, 3, 1, 0, 2, 1⟩ 1
    ⟨0, ⟨0, 7, 7, 2, 0, 2, 1⟩, 2, [Event.test 7 7, Event.analyze 1 true]⟩
    (by rw [ctlLoose_p7]; exact c4looseInner 0)

end SmartAnalyze

namespace SmartAnalyze

theorem sum_map_neg (l : List ℚ) : (l.map (fun x => -x)).sum = -l.sum := by
  induction l with
  | nil => simp
  | cons a l ih => simp [ih]; ring

theorem splitPos_sum (m : ℚ) :
    ∀ (fuel : Nat) (s : ℚ) (j : Nat) (l : List ℚ),
      splitPosF m fuel s j = some l → l.sum = s - (j : ℚ) * m := by
  intro fuel
  induction fuel with
  | zero => intro s j l h; simp [splitPosF] at h
  | succ n ih =>
    intro s j l h
    simp only [splitPosF] at h
    split_ifs at h with hcond
    · obtain ⟨l', hl', rfl⟩ := Option.map_eq_some'.mp h
      have := ih s (j + 1) l' hl'
      simp only [List.sum_cons, this]
      push_cast
      ring
    · obtain rfl : _ = l := Option.some.inj h
      simp

theorem splitNeg_eq (m : ℚ) :
    ∀ (fuel : Nat) (s : ℚ) (j : Nat),
      splitNegF m fuel s j =
        Option.map (List.map (fun x => -x)) (splitPosF m fuel (-s) j) := by
  intro fuel
  induction fuel with
  | zero => intro s j; simp [splitNegF, splitPosF]
  | succ n ih =>
    intro s j
    simp only [splitNegF, splitPosF]
    split_ifs with hcond
    · rw [ih s (j + 1)]
      cases splitPosF m n (-s) (j + 1) <;> simp
    · simp
      ring

theorem splitPos_last (m : ℚ) (fuel : Nat) (s : ℚ) (j : Nat) (l : List ℚ)
    (h : splitPosF m fuel s j = some l) (hle : s - (j : ℚ) * m ≤ m) :
    l = [s - (j : ℚ) * m] := by
  cases fuel with
  | zero => simp [splitPosF] at h
  | succ n =>
    simp only [splitPosF] at h
    rw [if_neg (by push_neg; exact hle)] at h
    exact (Option.some.inj h).symm

theorem splitPos_bounds (m : ℚ) (hm : 0 < m) :
    ∀ (fuel : Nat) (s : ℚ) (j : Nat) (l : List ℚ),
      splitPosF m fuel s j = some l → 0 ≤ s - (j : ℚ) * m →
      (∀ x ∈ l, 0 ≤ x ∧ x ≤ m) ∧ (0 < s - (j : ℚ) * m → ∀ x ∈ l, 0 < x) := by
  intro fuel
  induction fuel with
  | zero => intro s j l h; simp [splitPosF] at h
  | succ n ih =>
    intro s j l h hge
    simp only [splitPosF] at h
    split_ifs at h with hcond
    · obtain ⟨l', hl', rfl⟩ := Option.map_eq_some'.mp h
      have hge' : 0 ≤ s - ((j : ℚ) + 1) * m := by
        push_cast at hcond ⊢
        nlinarith
      have hpos' : 0 < s - ((j + 1 : ℕ) : ℚ) * m := by
        push_cast
        push_cast at hcond
        nlinarith
      obtain ⟨hall, hpos⟩ := ih s (j + 1) l' hl' (by push_cast; push_cast at hge'; linarith)
      constructor
      · intro x hx
        rcases List.mem_cons.mp hx with rfl | hx
        · exact ⟨le_of_lt hm, le_refl _⟩
        · exact hall x hx
      · intro hspos x hx
        rcases List.mem_cons.mp hx with rfl | hx
        · exact hm
        · exact hpos hpos' x hx
    · obtain rfl : _ = l := Option.some.inj h
      push_neg at hcond
      constructor
      · intro x hx
        rcases List.mem_singleton.mp hx with rfl
        exact ⟨hge, hcond⟩
      · intro hspos x hx
        rcases List.mem_singleton.mp hx with rfl
        exact hspos

end SmartAnalyze

namespace SmartAnalyze

theorem planRest_sum (fuel : Nat) (m : ℚ) :
    ∀ (ts : List ℚ) (prev : ℚ) (r : List ℚ),
      planRestF fuel m prev ts = some r → r.sum = ts.getLastD prev - prev := by
  intro ts
  induction ts with
  | nil =>
    intro prev r h
    obtain rfl : _ = r := Option.some.inj h
    simp
  | cons t ts ih =>
    intro prev r h
    simp only [planRestF] at h
    split_ifs at h with hsec
    · cases hleg : splitPosF m fuel (t - prev) 0 with
      | none => rw [hleg] at h; simp at h
      | some leg =>
        rw [hleg] at h
        cases hrest : planRestF fuel m t ts with
        | none => rw [hrest] at h; simp at h
        | some rest =>
          rw [hrest] at h
          obtain rfl : _ = r := Option.some.inj h
          have h1 := splitPos_sum m fuel (t - prev) 0 leg hleg
          have h2 := ih t rest hrest
          simp only [List.sum_append, h1, h2, List.getLastD_cons]
          push_cast
          ring
    · cases hleg : splitNegF m fuel (t - prev) 0 with
      | none => rw [hleg] at h; simp at h
      | some leg =>
        rw [hleg] at h
        cases hrest : planRestF fuel m t ts with
        | none => rw [hrest] at h; simp at h
        | some rest =>
          rw [hrest] at h
          obtain rfl : _ = r := Option.some.inj h
          rw [splitNeg_eq] at hleg
          obtain ⟨leg', hleg', rfl⟩ := Option.map_eq_some'.mp hleg
          have h1 := splitPos_sum m fuel (-(t - prev)) 0 leg' hleg'
          have h2 := ih t rest hrest
          simp only [List.sum_append, sum_map_neg, h1, h2, List.getLastD_cons]
          push_cast
          ring

theorem planSegs_sum (fuel : Nat) (m : ℚ) (t0 : ℚ) (ts : List ℚ) (segs : List ℚ)
    (h : planSegsF fuel m (t0 :: ts) = some segs) :
    segs.sum = (t0 :: ts).getLastD 0 := by
  simp only [planSegsF] at h
  cases hleg : splitPosF m fuel t0 0 with
  | none => rw [hleg] at h; simp at h
  | some leg =>
    rw [hleg] at h
    cases hrest : planRestF fuel m t0 ts with
    | none => rw [hrest] at h; simp at h
    | some rest =>
      rw [hrest] at h
      obtain rfl : _ = segs := Option.some.inj h
      have h1 := splitPos_sum m fuel t0 0 leg hleg
      have h2 := planRest_sum fuel m ts t0 rest hrest
      simp only [List.sum_append, h1, h2, List.getLastD_cons]
      push_cast
      ring

end SmartAnalyze

namespace SmartAnalyze

theorem planRest_eq_legsRest (fuel : Nat) (m : ℚ) :
    ∀ (ts : List ℚ) (prev : ℚ),
      planRestF fuel m prev ts =
        Option.map (fun L => (L.map Prod.snd).join) (legsRestF fuel m prev ts) := by
  intro ts
  induction ts with
  | nil => intro prev; rfl
  | cons t ts ih =>
    intro prev
    simp only [planRestF, legsRestF]
    split_ifs with hsec
    · cases hleg : splitPosF m fuel (t - prev) 0 <;>
        cases hrest : legsRestF fuel m t ts <;>
        simp_all [ih t]
    · cases hleg : splitNegF m fuel (t - prev) 0 <;>
        cases hrest : legsRestF fuel m t ts <;>
        simp_all [ih t]

theorem planSegs_eq_legsOf (fuel : Nat) (m : ℚ) (targets : List ℚ) :
    planSegsF fuel m targets =
      Option.map (fun L => (L.map Prod.snd).join) (legsOfF fuel m targets) := by
  cases targets with
  | nil => rfl
  | cons t0 ts =>
    simp only [planSegsF, legsOfF]
    cases hleg : splitPosF m fuel t0 0 <;>
      cases hrest : legsRestF fuel m t0 ts <;>
      simp_all [planRest_eq_legsRest fuel m ts t0]

theorem legsRest_deltas (fuel : Nat) (m : ℚ) :
    ∀ (ts : List ℚ) (prev : ℚ) (L : List (ℚ × List ℚ)),
      legsRestF fuel m prev ts = some L →
      L.map Prod.fst = List.zipWith (fun t p => t - p) ts (prev :: ts) := by
  intro ts
  induction ts with
  | nil =>
    intro prev L h
    obtain rfl : _ = L := Option.some.inj h
    simp
  | cons t ts ih =>
    intro prev L h
    simp only [legsRestF] at h
    rcases hleg : (if 0 ≤ t - prev then splitPosF m fuel (t - prev) 0
        else splitNegF m fuel (t - prev) 0) with _ | leg <;> rw [hleg] at h
    · simp at h
    · rcases hrest : legsRestF fuel m t ts with _ | rest <;> rw [hrest] at h
      · simp at h
      · obtain rfl : _ = L := Option.some.inj h
        simp [ih t rest hrest]

theorem leg_split_facts (m : ℚ) (hm : 0 < m) (fuel : Nat) (sec : ℚ) (leg : List ℚ)
    (h : (if 0 ≤ sec then splitPosF m fuel sec 0 else splitNegF m fuel sec 0) = some leg) :
    (∀ x ∈ leg, |x| ≤ m) ∧ (0 < sec → ∀ x ∈ leg, 0 < x) ∧
    (sec < 0 → ∀ x ∈ leg, x < 0) ∧ (sec = 0 → ∀ x ∈ leg, x = 0) := by
  split_ifs at h with hsec
  · have h0 : (0:ℚ) ≤ sec - ((0:ℕ) : ℚ) * m := by push_cast; linarith
    obtain ⟨hall, hpos⟩ := splitPos_bounds m hm fuel sec 0 leg h h0
    refine ⟨fun x hx => ?_, fun hsp x hx => ?_,
      fun hsn => absurd hsn (by linarith), fun hz x hx => ?_⟩
    · obtain ⟨h1, h2⟩ := hall x hx
      rw [abs_le]
      exact ⟨by linarith, h2⟩
    · exact hpos (by push_cast; linarith) x hx
    · have hlast := splitPos_last m fuel sec 0 leg h (by push_cast; linarith)
      rw [hlast] at hx
      rcases List.mem_singleton.mp hx with rfl
      push_cast
      linarith
  · push_neg at hsec
    rw [splitNeg_eq] at h
    obtain ⟨leg2, hleg2, rfl⟩ := Option.map_eq_some'.mp h
    have h0 : (0:ℚ) ≤ -sec - ((0:ℕ) : ℚ) * m := by push_cast; linarith
    obtain ⟨hall, hpos⟩ := splitPos_bounds m hm fuel (-sec) 0 leg2 hleg2 h0
    refine ⟨fun x hx => ?_, fun hsp => absurd hsp (by linarith),
      fun hsn x hx => ?_, fun hz => absurd hz (by linarith)⟩
    · obtain ⟨y, hy, rfl⟩ := List.mem_map.mp hx
      obtain ⟨h1, h2⟩ := hall y hy
      rw [abs_neg, abs_le]
      exact ⟨by linarith, h2⟩
    · obtain ⟨y, hy, rfl⟩ := List.mem_map.mp hx
      have := hpos (by push_cast; linarith) y hy
      linarith

theorem legsRest_facts (fuel : Nat) (m : ℚ) (hm : 0 < m) :
    ∀ (ts : List ℚ) (prev : ℚ) (L : List (ℚ × List ℚ)),
      legsRestF fuel m prev ts = some L →
      ∀ p ∈ L, (∀ x ∈ p.2, |x| ≤ m) ∧ (0 < p.1 → ∀ x ∈ p.2, 0 < x) ∧
        (p.1 < 0 → ∀ x ∈ p.2, x < 0) ∧ (p.1 = 0 → ∀ x ∈ p.2, x = 0) := by
  intro ts
  induction ts with
  | nil =>
    intro prev L h
    obtain rfl : _ = L := Option.some.inj h
    simp
  | cons t ts ih =>
    intro prev L h
    simp only [legsRestF] at h
    rcases hleg : (if 0 ≤ t - prev then splitPosF m fuel (t - prev) 0
        else splitNegF m fuel (t - prev) 0) with _ | leg <;> rw [hleg] at h
    · simp at h
    · rcases hrest : legsRestF fuel m t ts with _ | rest <;> rw [hrest] at h
      · simp at h
      · obtain rfl : _ = L := Option.some.inj h
        intro p hp
        rcases List.mem_cons.mp hp with rfl | hp
        · exact leg_split_facts m hm fuel (t - prev) leg hleg
        · exact ih t rest hrest p hp

theorem legsOf_facts (fuel : Nat) (m : ℚ) (hm : 0 < m) (t0 : ℚ) (ts : List ℚ)
    (L : List (ℚ × List ℚ)) (ht0 : 0 ≤ t0) (h : legsOfF fuel m (t0 :: ts) = some L) :
    ∀ p ∈ L, (∀ x ∈ p.2, |x| ≤ m) ∧ (0 < p.1 → ∀ x ∈ p.2, 0 < x) ∧
      (p.1 < 0 → ∀ x ∈ p.2, x < 0) ∧ (p.1 = 0 → ∀ x ∈ p.2, x = 0) := by
  simp only [legsOfF] at h
  rcases hleg : splitPosF m fuel t0 0 with _ | leg <;> rw [hleg] at h
  · simp at h
  · rcases hrest : legsRestF fuel m t0 ts with _ | rest <;> rw [hrest] at h
    · simp at h
    · obtain rfl : _ = L := Option.some.inj h
      intro p hp
      rcases List.mem_cons.mp hp with rfl | hp
      · exact leg_split_facts m hm fuel t0 leg (by rw [if_pos ht0]; exact hleg)
      · exact legsRest_facts fuel m hm ts t0 rest hrest p hp

end SmartAnalyze

namespace SmartAnalyze

/-- C5: for a targets sequence with positive first entry and positive maxStep,
the planned segments sum exactly to the last target; every segment's magnitude
is at most maxStep; and the plan decomposes into legs (one per delta of
`legDeltas`) whose segments all share the sign of the leg's delta. -/
theorem C5_static_planner (fuel : Nat) (m t0 : ℚ) (ts : List ℚ) (segs : List ℚ)
    (hm : 0 < m) (ht0 : 0 < t0)
    (hplan : planSegsF fuel m (t0 :: ts) = some segs) :
    segs.sum = (t0 :: ts).getLastD 0 ∧
    (∀ s ∈ segs, |s| ≤ m) ∧
    ∃ L, legsOfF fuel m (t0 :: ts) = some L ∧
      segs = (L.map Prod.snd).join ∧
      L.map Prod.fst = legDeltas (t0 :: ts) ∧
      ∀ p ∈ L, (0 < p.1 → ∀ s ∈ p.2, 0 < s) ∧ (p.1 < 0 → ∀ s ∈ p.2, s < 0) ∧
        (p.1 = 0 → ∀ s ∈ p.2, s = 0) := by
  have hcorr := planSegs_eq_legsOf fuel m (t0 :: ts)
  rw [hplan] at hcorr
  obtain ⟨L, hL, hjoin⟩ := (Option.map_eq_some'.mp hcorr.symm)
  have hfacts := legsOf_facts fuel m hm t0 ts L (le_of_lt ht0) hL
  refine ⟨planSegs_sum fuel m t0 ts segs hplan, ?_, L, hL, hjoin.symm, ?_, ?_⟩
  · intro s hs
    rw [← hjoin] at hs
    obtain ⟨l, hl, hsl⟩ := List.mem_join.mp hs
    obtain ⟨p, hp, rfl⟩ := List.mem_map.mp hl
    exact (hfacts p hp).1 s hsl
  · simp only [legsOfF] at hL
    rcases hleg : splitPosF m fuel t0 0 with _ | leg <;> rw [hleg] at hL
    · simp at hL
    · rcases hrest : legsRestF fuel m t0 ts with _ | rest <;> rw [hrest] at hL
      · simp at hL
      · obtain rfl : _ = L := Option.some.inj hL
        simp only [List.map_cons, legDeltas]
        rw [legsRest_deltas fuel m ts t0 rest hrest]
  · intro p hp
    obtain ⟨h1, h2, h3, h4⟩ := hfacts p hp
    exact ⟨h2, h3, h4⟩

/-- Witness for C5 at maxStep 1, targets `[2, 1]`. -/
theorem C5_static_planner_witness :
    planSegsF 5 1 [(2:ℚ), 1] = some [1, 1, -1] ∧
    (([1, 1, -1] : List ℚ).sum = ([(2:ℚ), 1]).getLastD 0 ∧
      (∀ s ∈ ([1, 1, -1] : List ℚ), |s| ≤ (1:ℚ)) ∧
      ∃ L, legsOfF 5 1 [(2:ℚ), 1] = some L ∧
        ([1, 1, -1] : List ℚ) = (L.map Prod.snd).join ∧
        L.map Prod.fst = legDeltas [(2:ℚ), 1] ∧
        ∀ p ∈ L, (0 < p.1 → ∀ s ∈ p.2, 0 < s) ∧ (p.1 < 0 → ∀ s ∈ p.2, s < 0) ∧
          (p.1 = 0 → ∀ s ∈ p.2, s = 0)) := by
  have hplan : planSegsF 5 1 [(2:ℚ), 1] = some [1, 1, -1] := by
    norm_num [planSegsF, planRestF, splitPosF, splitNegF]
  exact ⟨hplan,
    C5_static_planner 5 1 2 [1] [1, 1, -1] (by norm_num) (by norm_num) hplan⟩

/-- Amended C6: a leg whose delta is exactly zero contributes exactly one
increment, of size 0, to the planned sequence (instead of none). -/
theorem C6_zero_leg_one_zero_increment (fuel : Nat) (m prev : ℚ) (ts : List ℚ)
    (hm : 0 < m) :
    planRestF (fuel + 1) m prev (prev :: ts) =
      Option.map (fun rest => 0 :: rest) (planRestF (fuel + 1) m prev ts) := by
  have hx : prev - prev - ((0:ℕ) : ℚ) * m = 0 := by push_cast; ring
  simp only [planRestF, splitPosF]
  rw [if_pos (by simp : (0:ℚ) ≤ prev - prev)]
  rw [if_neg (by push_cast; simp; linarith : ¬(prev - prev - ((0:ℕ) : ℚ) * m > m))]
  cases planRestF (fuel + 1) m prev ts <;> simp [hx]

/-- Witness for the amended C6 at maxStep 1, a zero leg at value 5. -/
theorem C6_zero_leg_one_zero_increment_witness :
    planRestF (0 + 1) 1 5 [(5:ℚ)] =
      Option.map (fun rest => 0 :: rest) (planRestF (0 + 1) 1 5 []) :=
  C6_zero_leg_one_zero_increment 0 1 5 [] (by norm_num)

theorem c6incr1 (fuel : Nat) :
    recAnalyze solverOk ctlBase (fuel + 1) 1 0 7 3 ⟨0, 7, 3, 0, 0, 2, 1⟩ 0 =
      some ⟨0, ⟨0, 7, 3, 1, 0, 2, 1⟩, 1, [Event.analyze 1 true]⟩ := by
  rw [recAnalyze_ok solverOk ctlBase fuel 1 0 7 3 ⟨0, 7, 3, 0, 0, 2, 1⟩ 0 rfl]
  norm_num [syncConfig, ctlBase_p1, ctlBase_p11]

theorem c6incr2 (fuel : Nat) :
    recAnalyze solverOk ctlBase (fuel + 1) 0 0 7 3 ⟨0, 7, 3, 1, 1, 2, 1⟩ 1 =
      some ⟨0, ⟨0, 7, 3, 2, 1, 2, 0⟩, 2, [Event.integrator 0, Event.analyze 0 true]⟩ := by
  rw [recAnalyze_ok solverOk ctlBase fuel 0 0 7 3 ⟨0, 7, 3, 1, 1, 2, 1⟩ 1 rfl]
  norm_num [syncConfig, ctlBase_p1, ctlBase_p11]

/-- Counterexample to C6: with targets `[1, 1]` (second leg delta exactly zero)
and maxStep 1, the planner emits the segment list `[1, 0]` — the zero leg
contributes one zero-size increment, raising the run's segment count to 2 and
causing a second `ops.analyze` call at step 0. -/
theorem C6_counterexample :
    planSegsF 5 1 [(1:ℚ), 1] = some [1, 0] ∧
    (smartAnalyzeStatic solverOk ctlBase 1 [1, 1] 5).2 =
      some ⟨0, ⟨0, 7, 3, 2, 2, 2, 0⟩, 2,
        [Event.analyze 1 true, Event.integrator 0, Event.analyze 0 true]⟩ := by
  have hplan : planSegsF 5 1 [(1:ℚ), 1] = some [1, 0] := by
    norm_num [planSegsF, planRestF, splitPosF]
  refine ⟨hplan, ?_⟩
  rw [smartAnalyzeStatic_eval solverOk ctlBase 1 [1, 1] 5 [1, 0] hplan]
  have hcur : ({ staticStartCurrent ctlBase 1 [1, 1] with
      segs := ([1, 0] : List ℚ).length } : Current) = ⟨0, 7, 3, 0, 0, 2, 1⟩ := by
    norm_num [staticStartCurrent, staticFirstStep, ctlBase_p2, ctlBase_p3]
  rw [show (5 : Nat) = 4 + 1 from rfl]
  dsimp only
  rw [hcur]
  have h1 : recAnalyze solverOk ctlBase (4 + 1) 1 0 ctlBase.testIterTimes
      ctlBase.testTol ⟨0, 7, 3, 0, 0, 2, 1⟩ 0 =
      some ⟨0, ⟨0, 7, 3, 1, 0, 2, 1⟩, 1, [Event.analyze 1 true]⟩ := by
    rw [ctlBase_p3, ctlBase_p2]; exact c6incr1 4
  have h2 : recAnalyze solverOk ctlBase (4 + 1) 0 0 ctlBase.testIterTimes
      ctlBase.testTol ⟨0, 7, 3, 1, 1, 2, 1⟩ 1 =
      some ⟨0, ⟨0, 7, 3, 2, 1, 2, 0⟩, 2, [Event.integrator 0, Event.analyze 0 true]⟩ := by
    rw [ctlBase_p3, ctlBase_p2]; exact c6incr2 4
  rw [runSegs_cons_ok solverOk ctlBase (4 + 1) 1 [0] ⟨0, 7, 3, 0, 0, 2, 1⟩ 0
      ⟨0, ⟨0, 7, 3, 1, 0, 2, 1⟩, 1, [Event.analyze 1 true]⟩
      ⟨0, ⟨0, 7, 3, 2, 2, 2, 0⟩, 2, [Event.integrator 0, Event.analyze 0 true]⟩
      h1 (by decide) ?_]
  · rfl
  · dsimp only
    rw [runSegs_cons_ok solverOk ctlBase (4 + 1) 0 [] ⟨0, 7, 3, 1, 1, 2, 1⟩ 1
        ⟨0, ⟨0, 7, 3, 2, 1, 2, 0⟩, 2, [Event.integrator 0, Event.analyze 0 true]⟩
        ⟨0, ⟨0, 7, 3, 2, 2, 2, 0⟩, 2, []⟩
        h2 (by decide) (by rw [runSegs_nil])]
    rfl

end SmartAnalyze

namespace SmartAnalyze

theorem syncConfig_eq (ctl : Control) (step : ℚ) (aI tI : Nat) (tT : ℚ) (cur : Current) :
    syncConfig ctl step aI tI tT cur =
      (⟨aI, tI, tT, cur.counter, cur.progress, cur.segs,
        if ctl.analysisStatic = true ∧ cur.step ≠ step then step else cur.step⟩,
       (if aI ≠ cur.algoIndex then [Event.algo (ctl.algoTypes.getD aI 0)] else []) ++
       (if tI ≠ cur.testIterTimes ∨ tT ≠ cur.testTol then [Event.test tT tI] else []) ++
       (if ctl.analysisStatic = true ∧ cur.step ≠ step then [Event.integrator step]
        else [])) := by
  obtain ⟨ca, ci, ct, cc, cp, cs, cst⟩ := cur
  simp only [syncConfig]
  by_cases h1 : aI ≠ ca <;> by_cases h2 : tI ≠ ci ∨ tT ≠ ct <;>
    by_cases h3 : ctl.analysisStatic = true ∧ cst ≠ step <;>
    simp_all <;> try tauto
  all_goals (split_ifs <;> simp_all)

end SmartAnalyze

namespace SmartAnalyze

theorem recAnalyze_trace_shape (S : Solver) (ctl : Control) (fuel : Nat) (step : ℚ)
    (aI tI : Nat) (tT : ℚ) (cur : Current) (k : Nat) (r : Res)
    (h : recAnalyze S ctl (fuel + 1) step aI tI tT cur k = some r) :
    ∃ rest, r.trace =
      (syncConfig ctl step aI tI tT cur).2 ++ [Event.analyze step (S.ok k)] ++ rest := by
  by_cases hok : S.ok k = true
  · rw [recAnalyze_ok S ctl fuel step aI tI tT cur k hok] at h
    obtain rfl : _ = r := Option.some.inj h
    exact ⟨[], by rw [hok]; simp⟩
  · have hok' : S.ok k = false := by
      cases hS : S.ok k
      · rfl
      · exact absurd hS hok
    by_cases hA : ctl.tryAddTestTimes = true ∧ tI ≠ ctl.testIterTimesMore ∧
        S.lastNorm k < ctl.normTol
    · rw [recAnalyze_fail_add S ctl fuel step aI tI tT cur k hok' hA.1 hA.2.1 hA.2.2] at h
      obtain ⟨r', hr', rfl⟩ := Option.map_eq_some'.mp h
      exact ⟨r'.trace, by rw [hok']; simp [withTrace]⟩
    · rw [recAnalyze_fail_bcd S ctl fuel step aI tI tT cur k hok' hA] at h
      obtain ⟨r', hr', rfl⟩ := Option.map_eq_some'.mp h
      exact ⟨r'.trace, by rw [hok']; simp [withTrace]⟩

/-- C7: when `RecursiveAnalyze` is invoked with `algoIndex`, `testIterTimes`,
`testTol` (and, for Static runs, `step`) all equal to the tracked state, it
issues no configuration call before attempting the step (the trace starts
directly with the `ops.analyze` event); and each configuration call is issued
only when the requested value differs from the tracked one. -/
theorem C7_no_redundant_reconfiguration (ctl : Control) (step : ℚ)
    (aI tI : Nat) (tT : ℚ) (cur : Current) :
    (aI = cur.algoIndex → tI = cur.testIterTimes → tT = cur.testTol →
      (ctl.analysisStatic = true → step = cur.step) →
      syncConfig ctl step aI tI tT cur = (cur, []) ∧
      ∀ (S : Solver) (fuel k : Nat) (r : Res),
        recAnalyze S ctl (fuel + 1) step aI tI tT cur k = some r →
        ∃ rest, r.trace = Event.analyze step (S.ok k) :: rest) ∧
    (∀ t, Event.algo t ∈ (syncConfig ctl step aI tI tT cur).2 → aI ≠ cur.algoIndex) ∧
    (∀ q n, Event.test q n ∈ (syncConfig ctl step aI tI tT cur).2 →
      tI ≠ cur.testIterTimes ∨ tT ≠ cur.testTol) ∧
    (∀ s, Event.integrator s ∈ (syncConfig ctl step aI tI tT cur).2 →
      ctl.analysisStatic = true ∧ cur.step ≠ step) := by
  refine ⟨?_, ?_, ?_, ?_⟩
  · intro h1 h2 h3 h4
    have hsync : syncConfig ctl step aI tI tT cur = (cur, []) := by
      obtain ⟨ca, ci, ct, cc, cp, cs, cst⟩ := cur
      simp only at h1 h2 h3 h4
      subst h1; subst h2; subst h3
      rw [syncConfig_eq]
      have e3 : (if ctl.analysisStatic = true ∧
          (⟨aI, tI, tT, cc, cp, cs, cst⟩ : Current).step ≠ step then
            [Event.integrator step] else ([] : List Event)) = [] :=
        if_neg (by rintro ⟨hs, hc⟩; exact hc (h4 hs).symm)
      have e4 : (if ctl.analysisStatic = true ∧
          (⟨aI, tI, tT, cc, cp, cs, cst⟩ : Current).step ≠ step then step
          else (⟨aI, tI, tT, cc, cp, cs, cst⟩ : Current).step) = cst :=
        if_neg (by rintro ⟨hs, hc⟩; exact hc (h4 hs).symm)
      rw [e3, e4]
      simp
    refine ⟨hsync, fun S fuel k r h => ?_⟩
    obtain ⟨rest, htr⟩ := recAnalyze_trace_shape S ctl fuel step aI tI tT cur k r h
    rw [hsync] at htr
    exact ⟨rest, by simpa using htr⟩
  · intro t hmem
    rw [syncConfig_eq] at hmem
    simp only [List.mem_append] at hmem
    rcases hmem with (hmem | hmem) | hmem
    · revert hmem; split_ifs with hcond
      · intro _; exact hcond
      · intro hmem; simp at hmem
    · revert hmem; split_ifs with hcond <;> intro hmem <;> simp at hmem
    · revert hmem; split_ifs with hcond <;> intro hmem <;> simp at hmem
  · intro q n hmem
    rw [syncConfig_eq] at hmem
    simp only [List.mem_append] at hmem
    rcases hmem with (hmem | hmem) | hmem
    · revert hmem; split_ifs with hcond <;> intro hmem <;> simp at hmem
    · revert hmem; split_ifs with hcond
      · intro _; exact hcond
      · intro hmem; simp at hmem
    · revert hmem; split_ifs with hcond <;> intro hmem <;> simp at hmem
  · intro s hmem
    rw [syncConfig_eq] at hmem
    simp only [List.mem_append] at hmem
    rcases hmem with (hmem | hmem) | hmem
    · revert hmem; split_ifs with hcond <;> intro hmem <;> simp at hmem
    · revert hmem; split_ifs with hcond <;> intro hmem <;> simp at hmem
    · revert hmem; split_ifs with hcond
      · intro _; exact hcond
      · intro hmem; simp at hmem

/-- Witness for C7: `ctlBase` at a fully synchronized state. -/
theorem C7_no_redundant_reconfiguration_witness :
    syncConfig ctlBase 1 0 7 3 ⟨0, 7, 3, 0, 0, 1, 1⟩ = (⟨0, 7, 3, 0, 0, 1, 1⟩, []) ∧
    ∃ rest, ([Event.analyze 1 true] : List Event) =
      Event.analyze 1 (solverOk.ok 0) :: rest :=
  ⟨((C7_no_redundant_reconfiguration ctlBase 1 0 7 3 ⟨0, 7, 3, 0, 0, 1, 1⟩).1
      rfl rfl rfl (fun _ => rfl)).1,
   ((C7_no_redundant_reconfiguration ctlBase 1 0 7 3 ⟨0, 7, 3, 0, 0, 1, 1⟩).1
      rfl rfl rfl (fun _ => rfl)).2 solverOk 0 0
      ⟨0, ⟨0, 7, 3, 1, 0, 1, 1⟩, 1, [Event.analyze 1 true]⟩
      (by rw [recAnalyze_ok solverOk ctlBase 0 1 0 7 3 ⟨0, 7, 3, 0, 0, 1, 1⟩ 0 rfl]
          norm_num [syncConfig, ctlBase_p1, ctlBase_p11])⟩

end SmartAnalyze

namespace SmartAnalyze

theorem splitPos_diverges (m : ℚ) (hm : m ≤ 0) (s : ℚ) (hs : 0 < s) :
    ∀ (fuel : Nat) (j : Nat), splitPosF m fuel s j = none := by
  intro fuel
  induction fuel with
  | zero => intro j; rfl
  | succ n ih =>
    intro j
    have hj : (0:ℚ) ≤ (j : ℚ) := by positivity
    have hcond : s - (j : ℚ) * m > m := by nlinarith
    simp only [splitPosF, if_pos hcond, ih (j + 1), Option.map_none']

theorem planSegs_diverges (m : ℚ) (hm : m ≤ 0) (t0 : ℚ) (ht0 : 0 < t0)
    (ts : List ℚ) (fuel : Nat) : planSegsF fuel m (t0 :: ts) = none := by
  simp only [planSegsF, splitPos_diverges m hm t0 ht0 fuel 0]

theorem smartAnalyzeStatic_setup (S : Solver) (ctl : Control) (maxStep : ℚ)
    (targets : List ℚ) (fuel : Nat) :
    (smartAnalyzeStatic S ctl maxStep targets fuel).1 =
      staticSetupEvents ctl maxStep targets := by
  simp only [smartAnalyzeStatic]
  cases planSegsF fuel maxStep targets <;> rfl

/-- Amended C8: `SmartAnalyzeStatic` performs no validation of `maxStep`.  The
one-time `ops.test`/`setAlgorithm`/`ops.integrator` configuration is issued to
the solver unconditionally, and with `maxStep ≤ 0` and a positive first target
the segment-planning `while` loop never terminates (the run neither reports an
error nor attempts any step). -/
theorem C8_no_validation_planner_diverges (S : Solver) (ctl : Control)
    (maxStep t0 : ℚ) (ts : List ℚ) (hm : maxStep ≤ 0) (ht0 : 0 < t0) :
    ∀ fuel : Nat,
      planSegsF fuel maxStep (t0 :: ts) = none ∧
      smartAnalyzeStatic S ctl maxStep (t0 :: ts) fuel =
        (staticSetupEvents ctl maxStep (t0 :: ts), none) := by
  intro fuel
  have hplan := planSegs_diverges maxStep hm t0 ht0 ts fuel
  refine ⟨hplan, ?_⟩
  simp only [smartAnalyzeStatic, hplan]

/-- Witness for the amended C8 at `maxStep = 0`, `targets = [1]`. -/
theorem C8_no_validation_planner_diverges_witness :
    planSegsF 3 0 [(1:ℚ)] = none ∧
    smartAnalyzeStatic solverOk ctlBase 0 [(1:ℚ)] 3 =
      (staticSetupEvents ctlBase 0 [(1:ℚ)], none) :=
  C8_no_validation_planner_diverges solverOk ctlBase 0 1 [] (by norm_num)
    (by norm_num) 3

/-- Counterexample to C8: at `maxStep = 0` with `targets = [1]` the run is not
rejected — the solver is configured (`ops.test`, `setAlgorithm(40)`,
`ops.integrator(..., 0)` are all issued) and the planning loop never finishes
(`none` at any fuel, here 50), with no error report. -/
theorem C8_counterexample :
    (smartAnalyzeStatic solverOk ctlBase 0 [(1:ℚ)] 50).1 =
      [Event.test 3 7, Event.algo 40, Event.integrator 0] ∧
    (smartAnalyzeStatic solverOk ctlBase 0 [(1:ℚ)] 50).2 = none := by
  constructor
  · rw [smartAnalyzeStatic_setup]
    norm_num [staticSetupEvents, staticFirstStep, ctlBase_p2, ctlBase_p3, ctlBase_p9]
  · have hplan := planSegs_diverges 0 (by norm_num) 1 (by norm_num) ([] : List ℚ) 50
    simp only [smartAnalyzeStatic, hplan]

end SmartAnalyze

namespace SmartAnalyze

theorem c9run (t : Int) (S : Solver) (hS : ∀ n, S.ok n = true) :
    (smartAnalyzeStatic S { ctlBase with algoTypes := [t] } 1 [(1:ℚ)] 5).2 =
      some ⟨0, ⟨0, 7, 3, 1, 1, 1, 1⟩, 1, [Event.analyze 1 true]⟩ := by
  have hplan : planSegsF 5 1 [(1:ℚ)] = some [1] := by
    norm_num [planSegsF, planRestF, splitPosF]
  rw [smartAnalyzeStatic_eval S { ctlBase with algoTypes := [t] } 1 [1] 5 [1] hplan]
  have hcur : ({ staticStartCurrent { ctlBase with algoTypes := [t] } 1 [1] with
      segs := ([1] : List ℚ).length } : Current) = ⟨0, 7, 3, 0, 0, 1, 1⟩ := by
    norm_num [staticStartCurrent, staticFirstStep, ctlBase_p2, ctlBase_p3]
  rw [show (5 : Nat) = 4 + 1 from rfl]
  dsimp only
  rw [hcur]
  have h1 : recAnalyze S { ctlBase with algoTypes := [t] } (4 + 1) 1 0
      ({ ctlBase with algoTypes := [t] } : Control).testIterTimes
      ({ ctlBase with algoTypes := [t] } : Control).testTol ⟨0, 7, 3, 0, 0, 1, 1⟩ 0 =
      some ⟨0, ⟨0, 7, 3, 1, 0, 1, 1⟩, 1, [Event.analyze 1 true]⟩ := by
    rw [show ({ ctlBase with algoTypes := [t] } : Control).testIterTimes = 7 from rfl,
        show ({ ctlBase with algoTypes := [t] } : Control).testTol = 3 from rfl]
    rw [recAnalyze_ok S { ctlBase with algoTypes := [t] } 4 1 0 7 3
        ⟨0, 7, 3, 0, 0, 1, 1⟩ 0 (hS 0)]
    norm_num [syncConfig,
      show ({ ctlBase with algoTypes := [t] } : Control).analysisStatic = true from rfl,
      show ({ ctlBase with algoTypes := [t] } : Control).printPer = 0 from rfl,
      ctlBase_p11]
  rw [runSegs_cons_ok S { ctlBase with algoTypes := [t] } (4 + 1) 1 []
      ⟨0, 7, 3, 0, 0, 1, 1⟩ 0
      ⟨0, ⟨0, 7, 3, 1, 0, 1, 1⟩, 1, [Event.analyze 1 true]⟩
      ⟨0, ⟨0, 7, 3, 1, 1, 1, 1⟩, 1, []⟩ h1 (by decide) (by rw [runSegs_nil])]
  rfl

/-- Amended C9: an algorithm code outside the `setAlgorithm` catalog causes
only the error print (`default` case) and no `ops.algorithm` command; the run
is not terminated — it continues, attempts steps and can succeed. -/
theorem C9_unrecognized_spec_not_fatal (t : Int)
    (h : algoCatalog.contains t = false) :
    setAlgorithmPrintsError t = true ∧ setAlgorithmIssuesCommand t = false ∧
    ∀ S : Solver, (∀ n, S.ok n = true) →
      (smartAnalyzeStatic S { ctlBase with algoTypes := [t] } 1 [(1:ℚ)] 5).2 =
        some ⟨0, ⟨0, 7, 3, 1, 1, 1, 1⟩, 1, [Event.analyze 1 true]⟩ :=
  ⟨by simp only [setAlgorithmPrintsError, h]; rfl,
   by simp only [setAlgorithmIssuesCommand, h]; rfl,
   fun S hS => c9run t S hS⟩

/-- Witness for the amended C9 at code 7 (not in the catalog). -/
theorem C9_unrecognized_spec_not_fatal_witness :
    setAlgorithmPrintsError 7 = true ∧ setAlgorithmIssuesCommand 7 = false ∧
    (smartAnalyzeStatic solverOk { ctlBase with algoTypes := [(7:Int)] } 1 [(1:ℚ)] 5).2 =
      some ⟨0, ⟨0, 7, 3, 1, 1, 1, 1⟩, 1, [Event.analyze 1 true]⟩ :=
  ⟨(C9_unrecognized_spec_not_fatal 7 (by decide)).1,
   (C9_unrecognized_spec_not_fatal 7 (by decide)).2.1,
   (C9_unrecognized_spec_not_fatal 7 (by decide)).2.2 solverOk (fun n => rfl)⟩

/-- Counterexample to C9: with `algoTypes = [99]` (an unrecognized code) the
one-time configuration still runs (`setAlgorithm(99)` is invoked, prints the
error, issues no algorithm command) and the run then proceeds to attempt and
complete its increment successfully instead of terminating. -/
theorem C9_counterexample :
    (smartAnalyzeStatic solverOk ctlBad 1 [(1:ℚ)] 5).1 =
      [Event.test 3 7, Event.algo 99, Event.integrator 1] ∧
    setAlgorithmPrintsError 99 = true ∧ setAlgorithmIssuesCommand 99 = false ∧
    (smartAnalyzeStatic solverOk ctlBad 1 [(1:ℚ)] 5).2 =
      some ⟨0, ⟨0, 7, 3, 1, 1, 1, 1⟩, 1, [Event.analyze 1 true]⟩ := by
  refine ⟨?_, by decide, by decide, ?_⟩
  · rw [smartAnalyzeStatic_setup]
    norm_num [staticSetupEvents, staticFirstStep,
      show ctlBad.testTol = 3 from rfl, show ctlBad.testIterTimes = 7 from rfl,
      ctlBad_p9]
  · rw [show ctlBad = { ctlBase with algoTypes := [(99:Int)] } from rfl]
    exact c9run 99 solverOk (fun n => rfl)

end SmartAnalyze

namespace SmartAnalyze

theorem applyEvents_append (cfg : CfgTrack) (a b : List Event) :
    applyEvents cfg (a ++ b) = applyEvents (applyEvents cfg a) b := by
  simp [applyEvents, List.foldl_append]

theorem agree_counter (ctl : Control) (c : Current) (x : Nat) (cfg : CfgTrack) :
    Agree ctl { c with counter := x } cfg ↔ Agree ctl c cfg := Iff.rfl

theorem syncConfig_agree (ctl : Control) (step : ℚ) (aI tI : Nat) (tT : ℚ)
    (cur : Current) (cfg : CfgTrack) (h : Agree ctl cur cfg) :
    Agree ctl (syncConfig ctl step aI tI tT cur).1
      (applyEvents cfg (syncConfig ctl step aI tI tT cur).2) ∧
    (syncConfig ctl step aI tI tT cur).1.algoIndex = aI ∧
    (syncConfig ctl step aI tI tT cur).1.testIterTimes = tI ∧
    (syncConfig ctl step aI tI tT cur).1.testTol = tT ∧
    (ctl.analysisStatic = true → (syncConfig ctl step aI tI tT cur).1.step = step) := by
  obtain ⟨h1, h2, h3, h4⟩ := h
  rw [syncConfig_eq]
  refine ⟨?_, rfl, rfl, rfl, ?_⟩
  · by_cases c1 : aI ≠ cur.algoIndex <;>
      by_cases c2 : tI ≠ cur.testIterTimes ∨ tT ≠ cur.testTol <;>
      by_cases c3 : ctl.analysisStatic = true ∧ cur.step ≠ step <;>
      push_neg at c1 c2 c3 <;>
      simp_all [Agree, applyEvents, applyEvent] <;>
      try tauto
    all_goals (split_ifs <;> simp_all [applyEvent] <;> try tauto)
  · intro hstatic
    by_cases c3 : ctl.analysisStatic = true ∧ cur.step ≠ step
    · simp [c3]
    · push_neg at c3
      rw [if_neg (show ¬(ctl.analysisStatic = true ∧ cur.step ≠ step) from
        by rintro ⟨hs, hc⟩; exact hc (c3 hs))]
      exact c3 hstatic

end SmartAnalyze

namespace SmartAnalyze

theorem ladderBCD_agree (recur : ℚ → Nat → Nat → ℚ → Current → Nat → Option Res)
    (ctl : Control) (step : ℚ) (aI tI : Nat) (tT : ℚ) (cur : Current) (k : Nat) (r : Res)
    (Hrec : ∀ s' a' i' t' c' k' r' cfg', recur s' a' i' t' c' k' = some r' →
      Agree ctl c' cfg' → Agree ctl r'.cur (applyEvents cfg' r'.trace))
    (h : ladderBCD recur ctl step aI tI tT cur k = some r)
    (cfg : CfgTrack) (hA : Agree ctl cur cfg) :
    Agree ctl r.cur (applyEvents cfg r.trace) := by
  by_cases hb : ctl.tryAlterAlgoTypes = true ∧ aI + 1 < ctl.algoTypes.length
  · rw [ladderBCD_alter recur ctl step aI tI tT cur k hb] at h
    exact Hrec _ _ _ _ _ _ _ _ h hA
  · by_cases hc : |step| < 2 * ctl.minStep
    · by_cases hl : ctl.tryLooseTestTol = true ∧ cur.testTol ≠ ctl.looseTestTolTo
      · rw [ladderBCD_loose recur ctl step aI tI tT cur k hb hc hl] at h
        exact Hrec _ _ _ _ _ _ _ _ h hA
      · rw [ladderBCD_floor recur ctl step aI tI tT cur k hb hc hl] at h
        obtain rfl : _ = r := Option.some.inj h
        exact hA
    · rw [ladderBCD_bisect recur ctl step aI tI tT cur k hb hc] at h
      cases hr1 : recur (bisectNew ctl step) 0 tI tT cur k with
      | none => rw [hr1] at h; simp at h
      | some r1 =>
        rw [hr1] at h
        dsimp only at h
        have hA1 : Agree ctl r1.cur (applyEvents cfg r1.trace) :=
          Hrec _ _ _ _ _ _ _ _ hr1 hA
        by_cases h1 : r1.code < 0
        · rw [if_pos h1] at h
          obtain rfl : _ = r := Option.some.inj h
          exact hA1
        · rw [if_neg h1] at h
          cases hr2 : recur (bisectRest ctl step) 0 tI tT r1.cur r1.attempts with
          | none => rw [hr2] at h; simp at h
          | some r2 =>
            rw [hr2] at h
            dsimp only at h
            have hA2 : Agree ctl r2.cur (applyEvents (applyEvents cfg r1.trace) r2.trace) :=
              Hrec _ _ _ _ _ _ _ _ hr2 hA1
            by_cases h2 : r2.code < 0
            · rw [if_pos h2] at h
              obtain rfl : _ = r := Option.some.inj h
              show Agree ctl r2.cur (applyEvents cfg (r1.trace ++ r2.trace))
              rw [applyEvents_append]
              exact hA2
            · rw [if_neg h2] at h
              obtain rfl : _ = r := Option.some.inj h
              show Agree ctl r2.cur (applyEvents cfg (r1.trace ++ r2.trace))
              rw [applyEvents_append]
              exact hA2

theorem recAnalyze_agree (S : Solver) (ctl : Control) :
    ∀ (fuel : Nat) (step : ℚ) (aI tI : Nat) (tT : ℚ) (cur : Current) (k : Nat)
      (r : Res) (cfg : CfgTrack),
      recAnalyze S ctl fuel step aI tI tT cur k = some r →
      Agree ctl cur cfg → Agree ctl r.cur (applyEvents cfg r.trace) := by
  intro fuel
  induction fuel with
  | zero => intro step aI tI tT cur k r cfg h; simp [recAnalyze] at h
  | succ n ih =>
    intro step aI tI tT cur k r cfg h hA
    have hsyncA := (syncConfig_agree ctl step aI tI tT cur cfg hA).1
    have hanalyze : ∀ cfg' : CfgTrack, ∀ ok : Bool,
        applyEvents cfg' [Event.analyze step ok] = cfg' := fun _ _ => rfl
    by_cases hok : S.ok k = true
    · rw [recAnalyze_ok S ctl n step aI tI tT cur k hok] at h
      obtain rfl : _ = r := Option.some.inj h
      dsimp only
      rw [applyEvents_append, hanalyze]
      split_ifs <;> exact hsyncA
    · have hok' : S.ok k = false := by
        cases hS : S.ok k
        · rfl
        · exact absurd hS hok
      by_cases hAa : ctl.tryAddTestTimes = true ∧ tI ≠ ctl.testIterTimesMore ∧
          S.lastNorm k < ctl.normTol
      · rw [recAnalyze_fail_add S ctl n step aI tI tT cur k hok' hAa.1 hAa.2.1 hAa.2.2] at h
        obtain ⟨r', hr', rfl⟩ := Option.map_eq_some'.mp h
        simp only [withTrace]
        rw [applyEvents_append, applyEvents_append, hanalyze]
        exact ih step aI ctl.testIterTimesMore tT _ (k + 1) r' _ hr' hsyncA
      · rw [recAnalyze_fail_bcd S ctl n step aI tI tT cur k hok' hAa] at h
        obtain ⟨r', hr', rfl⟩ := Option.map_eq_some'.mp h
        simp only [withTrace]
        rw [applyEvents_append, applyEvents_append, hanalyze]
        exact ladderBCD_agree (recAnalyze S ctl n) ctl step aI tI tT _ (k + 1) r'
          (fun s' a' i' t' c' k' r'' cfg'' hr'' hA'' => ih s' a' i' t' c' k' r'' cfg'' hr'' hA'')
          hr' _ hsyncA

theorem runSegs_agree (S : Solver) (ctl : Control) (fuel : Nat) :
    ∀ (segs : List ℚ) (cur : Current) (k : Nat) (r : Res) (cfg : CfgTrack),
      runSegs S ctl fuel segs cur k = some r →
      Agree ctl cur cfg → Agree ctl r.cur (applyEvents cfg r.trace) := by
  intro segs
  induction segs with
  | nil =>
    intro cur k r cfg h hA
    obtain rfl : _ = r := Option.some.inj h
    exact hA
  | cons seg rest ih =>
    intro cur k r cfg h hA
    simp only [runSegs] at h
    cases hr1 : recAnalyze S ctl fuel seg 0 ctl.testIterTimes ctl.testTol cur k with
    | none => rw [hr1] at h; simp at h
    | some r1 =>
      rw [hr1] at h
      dsimp only at h
      have hA1 : Agree ctl r1.cur (applyEvents cfg r1.trace) :=
        recAnalyze_agree S ctl fuel seg 0 ctl.testIterTimes ctl.testTol cur k r1 cfg hr1 hA
      by_cases h1 : r1.code < 0
      · rw [if_pos h1] at h
        obtain rfl : _ = r := Option.some.inj h
        exact hA1
      · rw [if_neg h1] at h
        cases hr2 : runSegs S ctl fuel rest { r1.cur with progress := r1.cur.progress + 1 }
            r1.attempts with
        | none => rw [hr2] at h; simp at h
        | some r2 =>
          rw [hr2] at h
          obtain rfl : _ = r := Option.some.inj h
          have hA2 := ih { r1.cur with progress := r1.cur.progress + 1 } r1.attempts r2
            (applyEvents cfg r1.trace) hr2 hA1
          show Agree ctl r2.cur (applyEvents cfg (r1.trace ++ r2.trace))
          rw [applyEvents_append]
          exact hA2

end SmartAnalyze

namespace SmartAnalyze

/-- C10: the tracked `current` entries always equal the values most recently
passed to `setAlgorithm`, `ops.test` and (for Static runs) `ops.integrator`:
the invariant is established by the one-time setup of both orchestrators,
re-established by `syncConfig` right before every `ops.analyze` call (where the
tracked values moreover equal the requested ones), and preserved by every
`RecursiveAnalyze` call and by the whole increment loop. -/
theorem C10_tracked_state_matches_last_passed :
    (∀ (ctl : Control) (maxStep : ℚ) (targets : List ℚ) (cfg : CfgTrack),
      Agree ctl (staticStartCurrent ctl maxStep targets)
        (applyEvents cfg (staticSetupEvents ctl maxStep targets))) ∧
    (∀ (ctl : Control) (npts : Nat) (cfg : CfgTrack), ctl.analysisStatic = false →
      Agree ctl (transientStartCurrent ctl npts)
        (applyEvents cfg (transientSetupEvents ctl))) ∧
    (∀ (ctl : Control) (step : ℚ) (aI tI : Nat) (tT : ℚ) (cur : Current)
        (cfg : CfgTrack), Agree ctl cur cfg →
      Agree ctl (syncConfig ctl step aI tI tT cur).1
        (applyEvents cfg (syncConfig ctl step aI tI tT cur).2) ∧
      (syncConfig ctl step aI tI tT cur).1.algoIndex = aI ∧
      (syncConfig ctl step aI tI tT cur).1.testIterTimes = tI ∧
      (syncConfig ctl step aI tI tT cur).1.testTol = tT ∧
      (ctl.analysisStatic = true → (syncConfig ctl step aI tI tT cur).1.step = step)) ∧
    (∀ (S : Solver) (ctl : Control) (fuel : Nat) (step : ℚ) (aI tI : Nat) (tT : ℚ)
        (cur : Current) (k : Nat) (r : Res) (cfg : CfgTrack),
      recAnalyze S ctl fuel step aI tI tT cur k = some r →
      Agree ctl cur cfg → Agree ctl r.cur (applyEvents cfg r.trace)) ∧
    (∀ (S : Solver) (ctl : Control) (fuel : Nat) (segs : List ℚ) (cur : Current)
        (k : Nat) (r : Res) (cfg : CfgTrack),
      runSegs S ctl fuel segs cur k = some r →
      Agree ctl cur cfg → Agree ctl r.cur (applyEvents cfg r.trace)) := by
  refine ⟨?_, ?_, ?_, ?_, ?_⟩
  · intro ctl maxStep targets cfg
    simp [Agree, staticStartCurrent, staticSetupEvents, applyEvents, applyEvent]
  · intro ctl npts cfg hstatic
    simp [Agree, transientStartCurrent, transientSetupEvents, applyEvents, applyEvent,
      hstatic]
  · intro ctl step aI tI tT cur cfg hA
    exact syncConfig_agree ctl step aI tI tT cur cfg hA
  · intro S ctl fuel step aI tI tT cur k r cfg h hA
    exact recAnalyze_agree S ctl fuel step aI tI tT cur k r cfg h hA
  · intro S ctl fuel segs cur k r cfg h hA
    exact runSegs_agree S ctl fuel segs cur k r cfg h hA

/-- Witness for C10 at a one-increment run of `ctlBase`. -/
theorem C10_tracked_state_matches_last_passed_witness :
    Agree ctlBase ⟨0, 7, 3, 1, 0, 1, 1⟩
      (applyEvents ⟨40, 7, 3, 1⟩ [Event.analyze 1 true]) :=
  C10_tracked_state_matches_last_passed.2.2.2.1 solverOk ctlBase (0 + 1) 1 0 7 3
    ⟨0, 7, 3, 0, 0, 1, 1⟩ 0 ⟨0, ⟨0, 7, 3, 1, 0, 1, 1⟩, 1, [Event.analyze 1 true]⟩
    ⟨40, 7, 3, 1⟩
    (by rw [recAnalyze_ok solverOk ctlBase 0 1 0 7 3 ⟨0, 7, 3, 0, 0, 1, 1⟩ 0 rfl]
        norm_num [syncConfig, ctlBase_p1, ctlBase_p11])
    (by simp [Agree, ctlBase_p9])

end SmartAnalyze
